import Mathlib

/-!
# Verification of the DSA-X GODMODE detection/routing pipeline

Shallow embedding of the question-routing core of the repository:

* `question_router.py` — `QuestionRouter.classify_question`,
  `QuestionRouter.get_solver_priority`
* `dsa_godmode.py` — the bounded-queue / priority-queue enqueue path
  (`DSAGodMode._on_text_detected`) over Python's `queue.PriorityQueue`,
  whose storage operations are `heapq.heappush` / `heapq.heappop`
* `ai/real_time_intelligence.py` — deduplication
  (`RealTimeIntelligence._should_process_question`) and the confidence
  gate in `RealTimeIntelligence._solve_question`
* `intelligence/real_time_controller.py` — the solver dispatch loop
  (`RealTimeIntelligenceController._solver_loop`, `_solve_question`)
* `intelligence/universal_solver.py` — `UniversalSolver.classify_question_type`,
  `UniversalSolver.assess_difficulty`, `UniversalSolver.solve_question`

Python floats that only ever hold small half-integer or decimal values are
embedded as `ℚ`; machine integers as `ℤ`/`ℕ` (no overflow is reachable in the
modelled code paths); timestamps as `ℚ`.  Python `dict`s keyed by hashes are
embedded as association lists keyed by the hashed value itself (the only
property of the hash the code relies on is determinism).
-/

namespace DSAX

/-- The `QuestionType` enum of `question_router.py`. -/
inductive QuestionType where
  | DSA
  | DBMS
  | OOP
  | HLD
  | LLD
  | SYSTEM_DESIGN
  | ALGORITHM
  | DATA_STRUCTURE
  | THEORETICAL
  | UNKNOWN
deriving DecidableEq, Repr

/-- Python `int(x)`: truncation toward zero (for the embedded `ℚ` values). -/
def pyInt (q : ℚ) : ℤ :=
  if q < 0 then -(⌊-q⌋) else ⌊q⌋

/-- The `type_priorities` table of `QuestionRouter.get_solver_priority`
(`question_router.py` lines 305–314), together with the `.get(..., 1)`
default of line 316 for types absent from the table. -/
def typePriorities : QuestionType → ℤ
  | .DSA => 10
  | .ALGORITHM => 9
  | .DATA_STRUCTURE => 8
  | .SYSTEM_DESIGN => 7
  | .DBMS => 6
  | .OOP => 5
  | .THEORETICAL => 4
  | .UNKNOWN => 1
  | .HLD => 1
  | .LLD => 1

/-- `QuestionRouter.get_solver_priority` (`question_router.py` lines 292–325):
base priority from `type_priorities`, plus `int(confidence * 10)`, plus `5`
when the routing source is `'voice'`. -/
def getSolverPriority (questionType : QuestionType) (confidence : ℚ)
    (source : String) : ℤ :=
  typePriorities questionType + pyInt (confidence * 10) +
    (if source = "voice" then 5 else 0)


/-!
## Deduplication and confidence gating (`ai/real_time_intelligence.py`)

`RealTimeIntelligence` keeps `recent_questions`, a dict from
`hash(text.lower().strip())` to the last-seen timestamp.  The dict is embedded
as an association list keyed by the normalized text itself: the code relies
only on the hash being a deterministic function of the normalized text.
-/

/-- Python dict assignment `m[k] = v` on a string-keyed dict: replace the
binding if present, otherwise append it. -/
def pyDictSet {β : Type} (m : List (String × β)) (k : String) (v : β) :
    List (String × β) :=
  match m with
  | [] => [(k, v)]
  | (k', v') :: rest =>
    if k' = k then (k, v) :: rest else (k', v') :: pyDictSet rest k v

namespace RTI

/-- The key under which a question text is recorded for deduplication:
`hash(question_text.lower().strip())` in `_should_process_question`
(`ai/real_time_intelligence.py` line 154). -/
def dedupKey (text : String) : String :=
  text.toLower.trim

/-- `self.deduplication_window = 30  # seconds` (line 61). -/
def deduplicationWindow : ℚ := 30

/-- `RealTimeIntelligence._should_process_question` (lines 151–164): answer
whether the text is new, and record its key with the current time on "yes"
(or on an expired previous sighting).  A duplicate within the window does not
refresh the stored timestamp. -/
def shouldProcessQuestion (recentQuestions : List (String × ℚ))
    (questionText : String) (currentTime : ℚ) : Bool × List (String × ℚ) :=
  let questionHash := dedupKey questionText
  match recentQuestions.lookup questionHash with
  | some lastTime =>
    if currentTime - lastTime < deduplicationWindow then
      (false, recentQuestions)
    else
      (true, pyDictSet recentQuestions questionHash currentTime)
  | none => (true, pyDictSet recentQuestions questionHash currentTime)

/-- One question as produced by the vision/audio subsystems: the fields of
`DetectedQuestion` / `AudioQuestion` that the coordinator reads. -/
structure Detection where
  text : String
  confidence : ℚ
deriving DecidableEq, Repr

/-- An entry of the coordinator's `processing_queue`
(`_queue_question`, lines 166–175). -/
structure PendingQuestion where
  text : String
  confidence : ℚ
  source : String
deriving DecidableEq, Repr

/-- The body of `_process_visual_questions` / `_process_audio_questions`
(lines 137–149): a detection is queued iff `_should_process_question` answers
yes; the dedup check receives only the text, never the source. -/
def processIncoming (recentQuestions : List (String × ℚ))
    (processingQueue : List PendingQuestion) (question : Detection)
    (source : String) (currentTime : ℚ) :
    List (String × ℚ) × List PendingQuestion :=
  let (isNew, recentQuestions') :=
    shouldProcessQuestion recentQuestions question.text currentTime
  if isNew then
    (recentQuestions', processingQueue ++ [⟨question.text, question.confidence, source⟩])
  else
    (recentQuestions', processingQueue)

/-- `self.min_confidence_threshold = 0.4` (line 57). -/
def minConfidenceThreshold : ℚ := 2 / 5

/-- The fields of an `IntelligenceReport` relevant here. -/
structure Report where
  question : String
  source : String
  confidence : ℚ
deriving DecidableEq, Repr

/-- `RealTimeIntelligence._solve_question` (lines 185–209), restricted to its
observable effect on `results_queue`: a dequeued question whose confidence is
below `min_confidence_threshold` is skipped and produces no report. -/
def solveQuestion (resultsQueue : List Report) (q : PendingQuestion) :
    List Report :=
  if q.confidence < minConfidenceThreshold then resultsQueue
  else resultsQueue ++ [⟨q.text, q.source, q.confidence⟩]


end RTI

/-!
## The classifier of `question_router.py` (`QuestionRouter.classify_question`)

The regex patterns of `QuestionRouter.__init__` are alternations of literal
word sequences.  Each pattern is embedded as a list of alternatives, an
alternative being a list of "pieces" that must occur left to right in the
text (a piece boundary embeds `.*`).  Inside a piece, `\s+` and `\s*` are
embedded as one literal space, `an?` expands into the two alternatives `a` /
`an`, and `\s*\d*` into the empty string; this coincides with Python
`re.search` for texts whose whitespace consists of single spaces and which do
not use the optional-digit form.  The patterns are compiled with
`re.IGNORECASE` and searched over the raw text, which for these
ASCII-letter patterns is the same as searching the lower-cased text.
-/

/-- `needle.isPrefixOf hay` written out for `List Char`. -/
def startsWith : List Char → List Char → Bool
  | [], _ => true
  | _ :: _, [] => false
  | c :: cs, h :: hs => c = h && startsWith cs hs

/-- The remainder of `hay` after the first occurrence of `needle`, if any. -/
def dropAfterFirst (needle : List Char) : List Char → Option (List Char)
  | [] => if startsWith needle [] then some [] else none
  | c :: t =>
    if startsWith needle (c :: t) then some ((c :: t).drop needle.length)
    else dropAfterFirst needle t

/-- Substring occurrence. -/
def occursIn (needle : String) (hay : List Char) : Bool :=
  (dropAfterFirst needle.data hay).isSome

/-- One regex alternative: its pieces must occur in order, without overlap. -/
def altMatch (alt : List String) (hay : List Char) : Bool :=
  match alt with
  | [] => true
  | p :: rest =>
    match dropAfterFirst p.data hay with
    | none => false
    | some hay' => altMatch rest hay'

/-- `pattern.search(text)` for an alternation of alternatives. -/
def regexSearch (pattern : List (List String)) (hay : List Char) : Bool :=
  pattern.any fun alt => altMatch alt hay

/-- `self.dsa_patterns` (`question_router.py` lines 35–48). -/
def dsaPatterns : List (List (List String)) :=
  [ [["array"], ["linked list"], ["tree"], ["graph"], ["stack"], ["queue"],
     ["heap"], ["hash"]],
    [["two pointers"], ["sliding window"], ["dynamic programming"]],
    [["backtracking"], ["recursion"], ["divide and conquer"]],
    [["binary search"], ["linear search"], ["sorting"]],
    [["time complexity"], ["space complexity"], ["optimization"]],
    [["leetcode"], ["geeksforgeeks"], ["hackerrank"], ["codeforces"]],
    [["given a array"], ["given an array"], ["return the ", " of"]],
    [["input:", "output:"], ["example:"], ["constraints:"]],
    [["maximum"], ["minimum"], ["sum"], ["count"], ["reverse"], ["merge"]],
    [["palindrome"], ["anagram"], ["substring"], ["subsequence"]],
    [["path"], ["cycle"], ["connected"], ["component"], ["traversal"]],
    [["insert"], ["delete"], ["update"], ["search"], ["find"]] ]

/-- `self.dbms_patterns` (lines 51–62). -/
def dbmsPatterns : List (List (List String)) :=
  [ [["database"], ["sql"], ["mysql"], ["postgresql"], ["oracle"], ["mongodb"]],
    [["normalization"], ["denormalization"], ["acid"], ["transaction"]],
    [["index"], ["primary key"], ["foreign key"], ["candidate key"]],
    [["join"], ["inner join"], ["left join"], ["right join"]],
    [["group by"], ["having"], ["order by"], ["distinct"]],
    [["stored procedure"], ["trigger"], ["view"], ["cursor"]],
    [["deadlock"], ["locking"], ["isolation"], ["consistency"]],
    [["rdbms"], ["nosql"], ["relational"], ["non relational"]],
    [["query optimization"], ["execution plan"]],
    [["data warehouse"], ["data mining"], ["etl"]] ]

/-- `self.oop_patterns` (lines 65–76). -/
def oopPatterns : List (List (List String)) :=
  [ [["object oriented"], ["oop"], ["class"], ["object"], ["method"]],
    [["encapsulation"], ["inheritance"], ["polymorphism"], ["abstraction"]],
    [["interface"], ["abstract class"], ["virtual"], ["override"]],
    [["constructor"], ["destructor"], ["getter"], ["setter"]],
    [["public"], ["private"], ["protected"], ["static"], ["final"]],
    [["overloading"], ["overriding"], ["binding"], ["late binding"]],
    [["composition"], ["aggregation"], ["association"]],
    [["design pattern"], ["singleton"], ["factory"], ["observer"]],
    [["java"], ["c++"], ["python"], ["javascript"], ["typescript"]],
    [["instance"], ["reference"], ["pointer"], ["memory management"]] ]

/-- `self.system_design_patterns` (lines 79–92). -/
def systemDesignPatterns : List (List (List String)) :=
  [ [["system design"], ["high level design"], ["hld"]],
    [["low level design"], ["lld"], ["microservices"]],
    [["scalability"], ["load balancing"], ["caching"]],
    [["distributed system"], ["distributed computing"]],
    [["consistency"], ["availability"], ["partition tolerance"], ["cap"]],
    [["latency"], ["throughput"], ["bandwidth"], ["qps"]],
    [["horizontal scaling"], ["vertical scaling"]],
    [["database sharding"], ["replication"], ["backup"]],
    [["api design"], ["rest"], ["graphql"], ["soap"]],
    [["message queue"], ["kafka"], ["rabbitmq"], ["redis"]],
    [["cdn"], ["load balancer"], ["reverse proxy"]],
    [["monitoring"], ["logging"], ["alerting"], ["metrics"]] ]

/-- `self.compiled_patterns` (lines 95–100), as a table. -/
def compiledPatterns (qt : QuestionType) : List (List (List String)) :=
  match qt with
  | .DSA => dsaPatterns
  | .DBMS => dbmsPatterns
  | .OOP => oopPatterns
  | .SYSTEM_DESIGN => systemDesignPatterns
  | _ => []

/-- `self.type_keywords` (lines 103–125). -/
def typeKeywords (qt : QuestionType) : List String :=
  match qt with
  | .DSA =>
    ["algorithm", "data structure", "coding", "programming",
     "leetcode", "geeksforgeeks", "hackerrank", "codeforces",
     "array", "linked list", "tree", "graph", "stack", "queue",
     "sort", "search", "optimize", "complexity"]
  | .DBMS =>
    ["database", "sql", "mysql", "postgresql", "oracle",
     "normalization", "transaction", "index", "join",
     "query", "rdbms", "nosql", "acid"]
  | .OOP =>
    ["object oriented", "class", "object", "method",
     "inheritance", "polymorphism", "encapsulation",
     "interface", "design pattern", "java", "c++"]
  | .SYSTEM_DESIGN =>
    ["system design", "scalability", "distributed",
     "microservices", "load balancing", "caching",
     "api design", "architecture", "high level"]
  | _ => []

/-- The iteration order of the `scores` dict in `classify_question`: the
insertion order of `self.compiled_patterns` (and of `self.type_keywords`). -/
def routerScoreKeys : List QuestionType :=
  [.DSA, .DBMS, .OOP, .SYSTEM_DESIGN]

/-- Modelled from the spec: the fixed tie-break priority order the spec
claims, `[DSA, SYSTEM_DESIGN, DBMS, OOP, NETWORKS, OS, THEORETICAL]`,
restricted to the categories present in the router's enum (`NETWORKS` and
`OS` do not exist there). -/
def claimedTieBreakOrder : List QuestionType :=
  [.DSA, .SYSTEM_DESIGN, .DBMS, .OOP, .THEORETICAL]

/-- The combined pattern and keyword score of one category
(`classify_question`, lines 143–157): one point per matching compiled
pattern plus half a point per keyword contained in the lower-cased text. -/
def routerScore (qt : QuestionType) (textLower : List Char) : ℚ :=
  ((compiledPatterns qt).countP fun p => regexSearch p textLower) +
    ((typeKeywords qt).countP fun k => occursIn k textLower) * (1 / 2)

/-- The score in half-units (`2 * routerScore`), kept in `ℕ` so concrete
scores can be computed by evaluation. -/
def routerScoreHalf (qt : QuestionType) (textLower : List Char) : ℕ :=
  2 * ((compiledPatterns qt).countP fun p => regexSearch p textLower) +
    ((typeKeywords qt).countP fun k => occursIn k textLower)

/-- Python `max(iterable, key=f)` on the nonempty list `best :: l`: the first
element attaining the maximum of `f` (later elements replace the running best
only on a strict increase). -/
def pyMax {α : Type} {β : Type} [LinearOrder β] (f : α → β) :
    α → List α → α
  | best, [] => best
  | best, k :: rest => pyMax f (if f best < f k then k else best) rest

/-- `total_patterns` (line 167): `12 + 10 + 10 + 12 = 44`. -/
def totalPatterns : ℕ :=
  dsaPatterns.length + dbmsPatterns.length + oopPatterns.length +
    systemDesignPatterns.length

/-- Python `text.strip()`: whitespace removed from both ends. -/
def pyStrip (text : List Char) : List Char :=
  ((text.dropWhile Char.isWhitespace).reverse.dropWhile Char.isWhitespace).reverse

/-- Python `text.lower()` (the texts involved are ASCII). -/
def pyLower (text : List Char) : List Char :=
  text.map Char.toLower

/-- The `best_type` local of `classify_question` (line 163):
`max(scores.keys(), key=lambda k: scores[k])`, the first maximum in
`scores`-dict insertion order. -/
def routerBestType (textLower : List Char) : QuestionType :=
  pyMax (fun qt => routerScore qt textLower) .DSA
    [.DBMS, .OOP, .SYSTEM_DESIGN]

/-- The `confidence` local of `classify_question` (line 168):
`min(best_score / total_patterns, 1.0)`. -/
def routerConfidence (textLower : List Char) : ℚ :=
  min (routerScore (routerBestType textLower) textLower / (totalPatterns : ℚ)) 1

/-- `QuestionRouter.classify_question` (lines 127–175): score the four
categories, pick the first maximum in `scores`-dict order, normalize the
confidence against `total_patterns`, and fall back to `UNKNOWN` below the
`0.1` threshold or for short input. -/
def classifyQuestion (text : String) : QuestionType × ℚ :=
  if (pyStrip text.data).length < 10 then (.UNKNOWN, 0)
  else if routerConfidence (pyLower text.data) < 1 / 10 then
    (.UNKNOWN, routerConfidence (pyLower text.data))
  else (routerBestType (pyLower text.data), routerConfidence (pyLower text.data))


/-!
## The universal solver (`intelligence/universal_solver.py`)
-/

namespace Universal

/-- The `QuestionType` enum of `universal_solver.py` (distinct from the
router's enum: it has `OOPS`, `NETWORKS`, `OS` and `GENERAL`). -/
inductive UQuestionType where
  | DSA
  | SYSTEM_DESIGN
  | DBMS
  | OOPS
  | NETWORKS
  | OS
  | GENERAL
deriving DecidableEq, Repr

/-- The keyword lists of `UniversalSolver.classify_question_type`
(`universal_solver.py` lines 540–576), in the insertion order of the
`keyword_counts` dict (lines 578–586). -/
def classifierKeywords (qt : UQuestionType) : List String :=
  match qt with
  | .DSA =>
    ["algorithm", "array", "string", "tree", "graph", "linked list",
     "stack", "queue", "heap", "sorting", "searching", "recursion",
     "dynamic programming", "greedy", "backtracking", "binary search",
     "two pointers", "sliding window", "dfs", "bfs", "dijkstra"]
  | .SYSTEM_DESIGN =>
    ["design system", "scalability", "load balancer", "microservices",
     "distributed system", "caching", "database design", "api design",
     "high level design", "low level design", "architecture"]
  | .DBMS =>
    ["database", "sql", "query", "join", "index", "transaction",
     "acid", "normalization", "schema", "primary key", "foreign key"]
  | .OOPS =>
    ["class", "object", "inheritance", "polymorphism", "encapsulation",
     "abstraction", "interface", "design pattern", "singleton", "factory"]
  | .NETWORKS =>
    ["tcp", "udp", "http", "https", "dns", "osi model", "routing",
     "firewall", "subnet", "protocol", "networking"]
  | .OS =>
    ["operating system", "process", "thread", "scheduling",
     "memory management", "deadlock", "semaphore", "mutex"]
  | .GENERAL => []

/-- The iteration order of the `keyword_counts` dict. -/
def classifierKeys : List UQuestionType :=
  [.DSA, .SYSTEM_DESIGN, .DBMS, .OOPS, .NETWORKS, .OS]

/-- One category's keyword count over the (lower-cased) question. -/
def keywordCount (qt : UQuestionType) (question : List Char) : ℕ :=
  (classifierKeywords qt).countP fun k => occursIn k question

/-- The `best_match` local of `classify_question_type` (line 589):
`max(keyword_counts, key=keyword_counts.get)`, the first maximum in
`keyword_counts`-dict insertion order. -/
def universalBestMatch (question : List Char) : UQuestionType :=
  pyMax (fun qt => keywordCount qt question) .DSA
    [.SYSTEM_DESIGN, .DBMS, .OOPS, .NETWORKS, .OS]

/-- `UniversalSolver.classify_question_type` (lines 537–591): the category
with the highest keyword count (first in dict order on ties), or `GENERAL`
when the best count is zero.  The argument is the already lower-cased
question (`analyze_question` passes `question.lower()`). -/
def classifyQuestionType (question : List Char) : UQuestionType :=
  if 0 < keywordCount (universalBestMatch question) question then
    universalBestMatch question
  else .GENERAL

/-- The `'easy'` indicator list of `assess_difficulty` (line 773). -/
def easyIndicators : List String := ["basic", "simple", "introduction", "beginner"]

/-- The `'medium'` indicator list (line 774). -/
def mediumIndicators : List String := ["moderate", "intermediate", "standard"]

/-- The `'hard'` indicator list (line 775). -/
def hardIndicators : List String :=
  ["complex", "advanced", "optimize", "efficient", "challenging"]

/-- `difficulty_indicators` of `UniversalSolver.assess_difficulty`
(lines 771–777), in dict insertion order. -/
def difficultyIndicators : List (String × List String) :=
  [("easy", easyIndicators), ("medium", mediumIndicators),
   ("hard", hardIndicators)]

/-- Python `level.title()` on the three level names that occur. -/
def pyTitle (level : String) : String :=
  if level = "easy" then "Easy"
  else if level = "medium" then "Medium"
  else if level = "hard" then "Hard"
  else level

/-- `UniversalSolver.assess_difficulty` (lines 770–782): the first level in
dict order one of whose indicator words occurs in the question wins
(`level.title()`); `"Medium"` when no indicator occurs. -/
def assessDifficulty (question : List Char) : String :=
  match difficultyIndicators.find? (fun li =>
      li.2.any fun indicator => occursIn indicator question) with
  | some (level, _) => pyTitle level
  | none => "Medium"

/-- The number of indicator occurrences of one bucket — the "score" in the
spec's description of the difficulty heuristic (used to compare the claimed
greatest-score rule against the code's first-match rule). -/
def indicatorScore (indicators : List String) (question : List Char) : ℕ :=
  indicators.countP fun indicator => occursIn indicator question

/-- `UniversalSolver.extract_topics` (lines 784–791). -/
def extractTopics (question : List Char) (qt : UQuestionType) : List String :=
  let topics :=
    if qt = .DSA then
      ["array", "string", "tree", "graph", "sorting", "searching"].filter
        fun t => occursIn t question
    else []
  if topics = [] then ["general"] else topics

/-- `UniversalSolver.detect_language_preference` (lines 793–798). -/
def detectLanguagePreference (question : List Char) : String :=
  match ["python", "java", "cpp", "javascript", "c++"].find?
      (fun lang => occursIn lang question) with
  | some lang => lang
  | none => "python"

/-- `UniversalSolver.requires_code_implementation` (lines 800–802). -/
def requiresCodeImplementation (question : List Char) (qt : UQuestionType) :
    Bool :=
  (["implement", "write", "code", "function", "algorithm"].any fun k =>
    occursIn k question) || qt = .DSA

/-- `UniversalSolver.extract_key_concepts` (lines 804–811). -/
def extractKeyConcepts (question : List Char) : List String :=
  let concepts :=
    (if occursIn "complexity" question then ["time_complexity"] else []) ++
      (if occursIn "optimize" question then ["optimization"] else [])
  if concepts = [] then ["problem_solving"] else concepts

/-- The `QuestionAnalysis` dataclass (lines 45–52). -/
structure QuestionAnalysis where
  questionType : UQuestionType
  difficulty : String
  topics : List String
  languagePreference : String
  requiresCode : Bool
  keyConcepts : List String
deriving DecidableEq, Repr

/-- `UniversalSolver.analyze_question` (lines 506–535). -/
def analyzeQuestion (question : String) : QuestionAnalysis :=
  let questionLower := pyLower question.data
  let questionType := classifyQuestionType questionLower
  { questionType := questionType
    difficulty := assessDifficulty questionLower
    topics := extractTopics questionLower questionType
    languagePreference := detectLanguagePreference questionLower
    requiresCode := requiresCodeImplementation questionLower questionType
    keyConcepts := extractKeyConcepts questionLower }

/-- The keys of the `solutions` dict assembled by
`UniversalSolver.generate_solutions` (lines 592–619) followed by the
`web_insights` entry that `solve_question` merges in for `DSA` and
`SYSTEM_DESIGN` questions when web search is enabled (lines 479–482; it is
enabled by default, and `search_web_solutions` returns a fixed dict). -/
def solutionKeys (a : QuestionAnalysis) : List String :=
  let base :=
    if a.questionType = .DSA ∧ a.requiresCode then ["brute_force", "optimized"]
    else if a.questionType = .SYSTEM_DESIGN then ["design"]
    else if a.questionType = .DBMS then ["database"]
    else if a.questionType = .OOPS then ["oop"]
    else ["theoretical"]
  if a.questionType = .DSA ∨ a.questionType = .SYSTEM_DESIGN then
    base ++ ["web_insights"]
  else base

/-- `UniversalSolver.calculate_solution_confidence` (lines 839–846). -/
def calculateSolutionConfidence (a : QuestionAnalysis)
    (solutionCount : ℕ) : ℚ :=
  min 1 ((8 : ℚ) / 10 + (if 1 < solutionCount then 1 / 10 else 0) +
    (if a.questionType ≠ .GENERAL then 1 / 10 else 0))

/-- The response dict assembled by `UniversalSolver.solve_question`
(lines 484–491): question, analysis, solutions, creation timestamp and
confidence. -/
structure SolverResponse where
  question : String
  analysis : QuestionAnalysis
  solutions : List String
  timestamp : ℚ
  confidence : ℚ
deriving DecidableEq, Repr

/-- The non-exceptional body of `solve_question` on a cache miss: analysis,
solution generation and the final response record, parameterized by the
current time (`datetime.now()`). -/
def buildResponse (question : String) (now : ℚ) : SolverResponse :=
  let analysis := analyzeQuestion question
  let solutions := solutionKeys analysis
  { question := question
    analysis := analysis
    solutions := solutions
    timestamp := now
    confidence := calculateSolutionConfidence analysis solutions.length }

/-- The cache key of `solve_question`:
`hashlib.md5(question.encode()).hexdigest()`.  The digest is embedded as the
question string itself — determinism is the only property the cache relies
on, and distinct questions are assumed not to collide. -/
def questionCacheKey (question : String) : String := question

/-- `UniversalSolver.solve_question` (lines 465–503) as a transformer of the
`solution_cache`: return the cached response when the key is present,
otherwise build the response and cache it. -/
def solveQuestion (cache : List (String × SolverResponse))
    (question : String) (now : ℚ) :
    SolverResponse × List (String × SolverResponse) :=
  match cache.lookup (questionCacheKey question) with
  | some response => (response, cache)
  | none =>
    let response := buildResponse question now
    (response, pyDictSet cache (questionCacheKey question) response)

end Universal

/-!
## The dispatch loop (`intelligence/real_time_controller.py`)
-/

namespace Controller

/-- The fields of a queued `question_data` dict that the solver loop reads. -/
structure QuestionData where
  text : String
  source : String
deriving DecidableEq, Repr

/-- The result dict of `RealTimeIntelligenceController._solve_question`
(lines 242–271): on success the solver's response enriched with the source,
on an exception the error record `{'error': …, 'question': …, 'source': …}`
that preserves the original question text. -/
inductive SolveResult where
  | ok (solution : Universal.SolverResponse) (source : String)
  | err (error : String) (question : String) (source : String)
deriving DecidableEq, Repr

/-- `RealTimeIntelligenceController._solve_question` (lines 242–271),
parameterized by the universal solver call, which may raise
(`Except String` embeds a Python exception carrying its message).  The
`try`/`except` converts an exception into an error record. -/
def solveQuestion (uSolve : String → Except String Universal.SolverResponse)
    (questionData : QuestionData) : SolveResult :=
  match uSolve questionData.text with
  | .ok solution => .ok solution questionData.source
  | .error e => .err e questionData.text questionData.source

/-- `RealTimeIntelligenceController._solver_loop` (lines 166–197) over the
questions dequeued from `question_queue`, collecting the records put on
`solution_queue`: each dequeued item yields exactly one record, and because
`_solve_question` catches solver exceptions internally, the loop never
aborts on a failing item. -/
def solverLoop (uSolve : String → Except String Universal.SolverResponse) :
    List QuestionData → List (QuestionData × SolveResult)
  | [] => []
  | questionData :: rest =>
    (questionData, solveQuestion uSolve questionData) :: solverLoop uSolve rest

end Controller

/-!
## The priority queue of `dsa_godmode.py`

`DSAGodMode` stores `(-priority, routing_info)` tuples in a
`queue.PriorityQueue` (line 131: "Negative for max heap").  `PriorityQueue`
keeps its entries in a Python list ordered by `heapq.heappush` /
`heapq.heappop`, so those two stdlib functions are embedded verbatim below.
An entry is embedded as `ℤ × ℕ`: the negated priority, and an opaque
identifier standing for the `routing_info` dict.  Python compares such
tuples componentwise; when the integers tie, it falls through to comparing
the dicts, which have no ordering and raise `TypeError` — embedded as
`Except.error ()`.
-/

namespace Heapq

/-- A heap entry `(-priority, routing_info)`: the negated priority and an
opaque identifier standing for the unorderable `routing_info` dict. -/
abbrev Entry := ℤ × ℕ

/-- Python `<` on two entries: compare the leading ints; a tie falls through
to the dict payloads, which raise `TypeError`. -/
def cmpLt (a b : Entry) : Except Unit Bool :=
  if a.1 < b.1 then .ok true
  else if b.1 < a.1 then .ok false
  else .error ()

/-- `heapq._siftdown(heap, startpos, pos)`: bubble the new item at `pos` up
toward `startpos`, moving each larger parent down, and finally store the new
item.  The loop variable `pos` strictly decreases, so any `fuel ≥ pos` makes
the fuel-0 clause coincide with the loop exit at `pos = startpos = 0`; all
call sites pass `fuel = pos`.  The comparison `newitem < parent` precedes any
write of its iteration, so a `TypeError` leaves the list exactly as the loop
state holds it: the error carries that (partially sifted) list, whose hole
slot still holds its stale value — `newitem` on entry, a moved-down parent
copy afterwards — exactly as CPython leaves `heap` when `__lt__` raises. -/
def siftdownLoop (newitem : Entry) (startpos : ℕ) :
    ℕ → ℕ → List Entry → Except (List Entry) (List Entry)
  | 0, pos, heap => .ok (heap.set pos newitem)
  | fuel + 1, pos, heap =>
    if startpos < pos then
      let parentpos := (pos - 1) / 2
      let parent := heap.getD parentpos (0, 0)
      match cmpLt newitem parent with
      | .error _ => .error heap
      | .ok true => siftdownLoop newitem startpos fuel parentpos (heap.set pos parent)
      | .ok false => .ok (heap.set pos newitem)
    else .ok (heap.set pos newitem)

/-- `heapq.heappush(heap, item)`: `heap.append(item)` first, then sift the
appended item down toward the root (index `len(heap) - 1` after the append).
The append is committed before `_siftdown` runs, so when a tie comparison
raises `TypeError` the error carries the mutated list — the colliding item
is already in it. -/
def heappush (heap : List Entry) (item : Entry) :
    Except (List Entry) (List Entry) :=
  siftdownLoop item 0 heap.length heap.length (heap ++ [item])

/-- The `while` loop of `heapq._siftup(heap, pos)`: move the smaller child up
into the hole until the hole reaches a position without children, returning
the final hole position.  The hole index at least doubles each iteration, so
`fuel = endpos` always suffices; all call sites pass `fuel = endpos`.  The
child-vs-child comparison precedes the write of its iteration, so a
`TypeError` there carries the current (partially shifted) list, as CPython
leaves it. -/
def siftupLoop (endpos : ℕ) :
    ℕ → ℕ → List Entry → Except (List Entry) (ℕ × List Entry)
  | 0, pos, heap => .ok (pos, heap)
  | fuel + 1, pos, heap =>
    let childpos := 2 * pos + 1
    if childpos < endpos then
      let rightpos := childpos + 1
      match (if rightpos < endpos then
          match cmpLt (heap.getD childpos (0, 0)) (heap.getD rightpos (0, 0)) with
          | .error e => .error e
          | .ok true => .ok childpos
          | .ok false => .ok rightpos
        else .ok childpos : Except Unit ℕ) with
      | .error _ => .error heap
      | .ok cp => siftupLoop endpos fuel cp (heap.set pos (heap.getD cp (0, 0)))
    else .ok (pos, heap)

/-- `heapq._siftup(heap, pos)`: sift the hole at `pos` to a childless
position `finalpos`, store the displaced item there (`heap[pos] = newitem`
in the source — committed before `_siftdown` runs), then sift it back down
toward `startpos = pos`.  An error from either phase carries the list with
all writes performed so far. -/
def siftup (heap : List Entry) (pos : ℕ) : Except (List Entry) (List Entry) :=
  let endpos := heap.length
  let newitem := heap.getD pos (0, 0)
  match siftupLoop endpos endpos pos heap with
  | .error h => .error h
  | .ok (finalpos, h) =>
    siftdownLoop newitem pos finalpos finalpos (h.set finalpos newitem)

/-- `heapq.heappop(heap)`: pop the last element; if the heap is still
nonempty, remember the root as the return value, move the last element into
the root and repair with `_siftup`.  The pop of the last element and the
overwrite of the root are committed before `_siftup` runs, so when a tie
comparison raises `TypeError` the root has already been removed from the
list and survives only in the (lost) local `returnitem`: the error carries
the list without it.  Popping an empty heap raises `IndexError` (the queue
wrapper never pops an empty heap). -/
def heappop (heap : List Entry) : Except (List Entry) (Entry × List Entry) :=
  match heap.getLast? with
  | none => .error []
  | some lastelt =>
    let rest := heap.dropLast
    if rest.isEmpty then .ok (lastelt, [])
    else
      let returnitem := rest.getD 0 (0, 0)
      match siftup (rest.set 0 lastelt) 0 with
      | .error h => .error h
      | .ok h => .ok (returnitem, h)

/-- The sort key stored at index `i` (the negated priority; `(0, 0)` is a
dummy default, only read out of bounds). -/
def keyAt (heap : List Entry) (i : ℕ) : ℤ :=
  (heap.getD i (0, 0)).1

/-- The binary-heap ordering invariant of a `heapq` list: every child is at
least its parent. -/
def heapInv (heap : List Entry) : Prop :=
  ∀ c, c < heap.length → 0 < c → keyAt heap ((c - 1) / 2) ≤ keyAt heap c

instance (heap : List Entry) : Decidable (heapInv heap) := by
  unfold heapInv
  infer_instance

/-- All stored first components (negated priorities) are distinct. -/
def keysNodup (heap : List Entry) : Prop :=
  (heap.map Prod.fst).Nodup

instance (heap : List Entry) : Decidable (keysNodup heap) := by
  unfold keysNodup
  infer_instance

/-- Invariant of both sift loops: the heap ordering holds on every edge not
touching the hole `pos`, and every child of the hole is at least the hole's
parent. -/
structure HoleInv (heap : List Entry) (pos : ℕ) : Prop where
  bounded : pos < heap.length
  ord : ∀ c, c < heap.length → 0 < c → c ≠ pos → (c - 1) / 2 ≠ pos →
    keyAt heap ((c - 1) / 2) ≤ keyAt heap c
  par : ∀ c, c < heap.length → (c - 1) / 2 = pos → 0 < pos →
    keyAt heap ((pos - 1) / 2) ≤ keyAt heap c

/-- Additional invariant of `siftdownLoop`: the item being inserted is at
most every child of the hole. -/
def NewitemLe (heap : List Entry) (pos : ℕ) (newitem : Entry) : Prop :=
  ∀ c, c < heap.length → (c - 1) / 2 = pos → 0 < c → newitem.1 ≤ keyAt heap c

/-- The sequence of entries obtained by repeatedly popping the heap: the
dequeue order of `_process_questions`, whose `while self.running` loop wraps
each `get()` in `try/except Exception` and continues, so a pop that raises
`TypeError` yields no entry for that iteration but the loop carries on with
the list the failed pop left behind. -/
def drain : ℕ → List Entry → List Entry
  | 0, _ => []
  | fuel + 1, heap =>
    if heap.isEmpty then []
    else
      match heappop heap with
      | .ok (r, h) => r :: drain fuel h
      | .error h => drain fuel h

end Heapq

/-- Python's `queue.PriorityQueue`: a `maxsize` bound and the `heapq`-ordered
entry list. -/
structure PyPriorityQueue where
  maxsize : ℤ
  heap : List Heapq.Entry
deriving DecidableEq, Repr

/-- `queue.Queue.full()`: `0 < self.maxsize <= self._qsize()`. -/
def qFull (q : PyPriorityQueue) : Bool :=
  decide (0 < q.maxsize ∧ q.maxsize ≤ (q.heap.length : ℤ))

/-- `DSAGodMode.__init__` line 54: `self.question_queue =
queue.PriorityQueue()` — constructed without a `maxsize` argument, i.e.
`maxsize = 0`, the unbounded default. -/
def initialQuestionQueue : PyPriorityQueue :=
  { maxsize := 0, heap := [] }

/-- `DSAGodMode._get_default_config()['question_processing']['max_queue_size']`
(`dsa_godmode.py` line 93) — declared as `100` but never read anywhere in the
repository, in particular never passed to the `PriorityQueue` constructor. -/
def defaultMaxQueueSize : ℕ := 100

/-- The queueing step of `DSAGodMode._on_text_detected` (lines 129–144):
`if not self.question_queue.full(): put((-priority, routing_info)) else:
drop`.  The surrounding `try`/`except` (lines 120–149) also catches a
`TypeError` raised by `heappush` when an equal-priority entry forces a dict
comparison — but `heappush` appends before it compares, so the caught
exception leaves the colliding entry in the queue's list, in whatever
partially sifted state the failed push produced. -/
def onTextDetected (q : PyPriorityQueue) (priority : ℤ) (payload : ℕ) :
    PyPriorityQueue :=
  if qFull q then q
  else
    match Heapq.heappush q.heap (-priority, payload) with
    | .ok h => { q with heap := h }
    | .error h => { q with heap := h }

/-! ## Theorems -/

/-- For nonnegative arguments Python's `int` truncation is the floor. -/
theorem pyInt_eq_floor (q : ℚ) (h : 0 ≤ q) : pyInt q = ⌊q⌋ := by
  simp [pyInt, not_lt.mpr h]

/-- **C1.** For every routed question with nonnegative confidence, the computed
priority is the fixed category base (DSA = 10, ALGORITHM = 9,
DATA_STRUCTURE = 8, SYSTEM_DESIGN = 7, DBMS = 6, OOP = 5, THEORETICAL = 4,
UNKNOWN = 1) plus `⌊confidence * 10⌋` plus a bonus of `5` exactly when the
source is the audio/voice source; in particular a DSA question with
confidence `0.9` from the screen source gets priority `19`. -/
theorem solver_priority_formula (confidence : ℚ) (hconf : 0 ≤ confidence) :
    (∀ (qt : QuestionType) (source : String),
        getSolverPriority qt confidence source =
          typePriorities qt + ⌊confidence * 10⌋ +
            (if source = "voice" then 5 else 0)) ∧
    typePriorities .DSA = 10 ∧ typePriorities .ALGORITHM = 9 ∧
    typePriorities .DATA_STRUCTURE = 8 ∧ typePriorities .SYSTEM_DESIGN = 7 ∧
    typePriorities .DBMS = 6 ∧ typePriorities .OOP = 5 ∧
    typePriorities .THEORETICAL = 4 ∧ typePriorities .UNKNOWN = 1 ∧
    getSolverPriority .DSA (9 / 10) "screen" = 19 := by
  refine ⟨fun qt source => ?_, rfl, rfl, rfl, rfl, rfl, rfl, rfl, rfl, ?_⟩
  · rw [getSolverPriority, pyInt_eq_floor _ (by positivity)]
  · have h9 : ((9 : ℚ) / 10) * 10 = 9 := by norm_num
    simp [getSolverPriority, pyInt, h9, typePriorities]
    norm_num

/-- Witness for `solver_priority_formula` at confidence `9/10`. -/
theorem solver_priority_formula_witness :
    getSolverPriority .DSA (9 / 10) "voice" =
      typePriorities .DSA + ⌊(9 : ℚ) / 10 * 10⌋ + 5 := by
  have h := solver_priority_formula (9 / 10) (by norm_num)
  simpa using h.1 .DSA "voice"

theorem lookup_pyDictSet_self {β : Type} (m : List (String × β)) (k : String)
    (v : β) : (pyDictSet m k v).lookup k = some v := by
  induction m with
  | nil => simp [pyDictSet]
  | cons kv rest ih =>
    obtain ⟨k', v'⟩ := kv
    by_cases h : k' = k
    · simp [pyDictSet, h]
    · have hne : (k == k') = false := beq_eq_false_iff_ne.mpr fun e => h e.symm
      simp [pyDictSet, h, List.lookup, hne, ih]

/-- **C2.** Checking the deduplicator twice within the 30-second window with
identical text answers new-question then duplicate; once more than the window
has elapsed since the first sighting, a third check answers new-question
again.  The key depends on the text only, so the same text arriving from a
second, different source within the window is still a duplicate and only the
first occurrence is queued for solving. -/
theorem dedup_window_idempotence (recent₀ : List (String × ℚ))
    (queue₀ : List RTI.PendingQuestion) (text : String) (conf₁ conf₂ : ℚ)
    (src₁ src₂ : String) (t₁ t₂ t₃ : ℚ)
    (hfresh : recent₀.lookup (RTI.dedupKey text) = none)
    (h₁₂ : t₂ - t₁ < RTI.deduplicationWindow)
    (h₁₃ : RTI.deduplicationWindow < t₃ - t₁) :
    (RTI.shouldProcessQuestion recent₀ text t₁).1 = true ∧
    (RTI.shouldProcessQuestion
      (RTI.shouldProcessQuestion recent₀ text t₁).2 text t₂).1 = false ∧
    (RTI.shouldProcessQuestion
      (RTI.shouldProcessQuestion
        (RTI.shouldProcessQuestion recent₀ text t₁).2 text t₂).2 text t₃).1
      = true ∧
    RTI.processIncoming recent₀ queue₀ ⟨text, conf₁⟩ src₁ t₁ =
      (pyDictSet recent₀ (RTI.dedupKey text) t₁,
        queue₀ ++ [⟨text, conf₁, src₁⟩]) ∧
    RTI.processIncoming (pyDictSet recent₀ (RTI.dedupKey text) t₁)
        (queue₀ ++ [⟨text, conf₁, src₁⟩]) ⟨text, conf₂⟩ src₂ t₂ =
      (pyDictSet recent₀ (RTI.dedupKey text) t₁,
        queue₀ ++ [⟨text, conf₁, src₁⟩]) := by
  have hset := lookup_pyDictSet_self recent₀ (RTI.dedupKey text) t₁
  have h₂ : t₂ - t₁ < RTI.deduplicationWindow := h₁₂
  have h₃ : ¬ t₃ - t₁ < RTI.deduplicationWindow := not_lt.mpr (le_of_lt h₁₃)
  refine ⟨?_, ?_, ?_, ?_, ?_⟩
  · simp [RTI.shouldProcessQuestion, hfresh]
  · simp [RTI.shouldProcessQuestion, hfresh, hset, h₂]
  · simp [RTI.shouldProcessQuestion, hfresh, hset, h₂, h₃]
  · simp [RTI.processIncoming, RTI.shouldProcessQuestion, hfresh]
  · simp [RTI.processIncoming, RTI.shouldProcessQuestion, hset, h₂]

/-- Witness for `dedup_window_idempotence`: the text `"What is two sum?"`
observed at times `0`, `5` (from a different source) and `31`. -/
theorem dedup_window_idempotence_witness :
    (RTI.shouldProcessQuestion [] "What is two sum?" 0).1 = true ∧
    (RTI.shouldProcessQuestion
      (RTI.shouldProcessQuestion [] "What is two sum?" 0).2
      "What is two sum?" 5).1 = false ∧
    (RTI.shouldProcessQuestion
      (RTI.shouldProcessQuestion
        (RTI.shouldProcessQuestion [] "What is two sum?" 0).2
        "What is two sum?" 5).2 "What is two sum?" 31).1 = true ∧
    RTI.processIncoming [] [] ⟨"What is two sum?", 9 / 10⟩ "screen" 0 =
      (pyDictSet [] (RTI.dedupKey "What is two sum?") 0,
        [] ++ [⟨"What is two sum?", 9 / 10, "screen"⟩]) ∧
    RTI.processIncoming (pyDictSet [] (RTI.dedupKey "What is two sum?") 0)
        ([] ++ [⟨"What is two sum?", 9 / 10, "screen"⟩])
        ⟨"What is two sum?", 8 / 10⟩ "audio" 5 =
      (pyDictSet [] (RTI.dedupKey "What is two sum?") 0,
        [] ++ [⟨"What is two sum?", 9 / 10, "screen"⟩]) :=
  dedup_window_idempotence [] [] "What is two sum?" (9 / 10) (8 / 10)
    "screen" "audio" 0 5 31 rfl (by norm_num [RTI.deduplicationWindow])
    (by norm_num [RTI.deduplicationWindow])

/-- **C9.** The deduplication record is written when the question is detected,
before the confidence threshold is checked at solve time: a detection whose
confidence is below `min_confidence_threshold` still records its
normalized-text key with the current timestamp (and is queued), the solve
step then discards it without producing a report, and an identical text
arriving within the window afterwards is suppressed as a duplicate even
though the first occurrence was never solved. -/
theorem low_confidence_detection_still_recorded
    (recent₀ : List (String × ℚ)) (queue₀ : List RTI.PendingQuestion)
    (results₀ : List RTI.Report) (text : String) (conf₁ conf₂ : ℚ)
    (src₁ src₂ : String) (t₁ t₂ : ℚ)
    (hconf : conf₁ < RTI.minConfidenceThreshold)
    (hfresh : recent₀.lookup (RTI.dedupKey text) = none)
    (h₁₂ : t₂ - t₁ < RTI.deduplicationWindow) :
    (RTI.processIncoming recent₀ queue₀ ⟨text, conf₁⟩ src₁ t₁).1.lookup
        (RTI.dedupKey text) = some t₁ ∧
    (RTI.processIncoming recent₀ queue₀ ⟨text, conf₁⟩ src₁ t₁).2 =
      queue₀ ++ [⟨text, conf₁, src₁⟩] ∧
    RTI.solveQuestion results₀ ⟨text, conf₁, src₁⟩ = results₀ ∧
    RTI.processIncoming (RTI.processIncoming recent₀ queue₀ ⟨text, conf₁⟩ src₁ t₁).1
        (queue₀ ++ [⟨text, conf₁, src₁⟩]) ⟨text, conf₂⟩ src₂ t₂ =
      ((RTI.processIncoming recent₀ queue₀ ⟨text, conf₁⟩ src₁ t₁).1,
        queue₀ ++ [⟨text, conf₁, src₁⟩]) := by
  have hset := lookup_pyDictSet_self recent₀ (RTI.dedupKey text) t₁
  refine ⟨?_, ?_, ?_, ?_⟩
  · simp [RTI.processIncoming, RTI.shouldProcessQuestion, hfresh, hset]
  · simp [RTI.processIncoming, RTI.shouldProcessQuestion, hfresh]
  · simp [RTI.solveQuestion, hconf]
  · simp [RTI.processIncoming, RTI.shouldProcessQuestion, hfresh, hset, h₁₂]

/-- Witness for `low_confidence_detection_still_recorded`: a detection of
confidence `0.3 < 0.4` at time `0`, repeated from another source at time
`10`. -/
theorem low_confidence_detection_still_recorded_witness :
    (RTI.processIncoming [] [] ⟨"Explain ACID properties?", 3 / 10⟩
        "screen" 0).1.lookup (RTI.dedupKey "Explain ACID properties?")
      = some 0 ∧
    (RTI.processIncoming [] [] ⟨"Explain ACID properties?", 3 / 10⟩
        "screen" 0).2 = [] ++ [⟨"Explain ACID properties?", 3 / 10, "screen"⟩] ∧
    RTI.solveQuestion [] ⟨"Explain ACID properties?", 3 / 10, "screen"⟩ = [] ∧
    RTI.processIncoming
        (RTI.processIncoming [] [] ⟨"Explain ACID properties?", 3 / 10⟩
          "screen" 0).1
        ([] ++ [⟨"Explain ACID properties?", 3 / 10, "screen"⟩])
        ⟨"Explain ACID properties?", 6 / 10⟩ "audio" 10 =
      ((RTI.processIncoming [] [] ⟨"Explain ACID properties?", 3 / 10⟩
          "screen" 0).1,
        [] ++ [⟨"Explain ACID properties?", 3 / 10, "screen"⟩]) :=
  low_confidence_detection_still_recorded [] [] [] "Explain ACID properties?"
    (3 / 10) (6 / 10) "screen" "audio" 0 10
    (by norm_num [RTI.minConfidenceThreshold]) rfl
    (by norm_num [RTI.deduplicationWindow])

/-- **C10.** The universal solver caches responses by (the MD5 digest of) the
exact question string: after any call, a further call with a
character-identical question returns exactly the response produced the first
time — analysis, solutions, confidence and the original timestamp included —
and leaves the cache unchanged, whatever the new call's clock reads. -/
theorem solve_question_cache_idempotent
    (cache : List (String × Universal.SolverResponse)) (question : String)
    (t₁ t₂ : ℚ) :
    (Universal.solveQuestion
        (Universal.solveQuestion cache question t₁).2 question t₂).1 =
      (Universal.solveQuestion cache question t₁).1 ∧
    (Universal.solveQuestion
        (Universal.solveQuestion cache question t₁).2 question t₂).2 =
      (Universal.solveQuestion cache question t₁).2 := by
  cases hl : cache.lookup (Universal.questionCacheKey question) with
  | some r => simp [Universal.solveQuestion, hl]
  | none => simp [Universal.solveQuestion, hl, lookup_pyDictSet_self]

theorem solverLoop_eq_map
    (uSolve : String → Except String Universal.SolverResponse)
    (queue : List Controller.QuestionData) :
    Controller.solverLoop uSolve queue =
      queue.map fun qd => (qd, Controller.solveQuestion uSolve qd) := by
  induction queue with
  | nil => rfl
  | cons q rest ih => simp [Controller.solverLoop, ih]

/-- **C6.** If the underlying solver raises on a dequeued question, the
exception is caught and converted into exactly one error record that
preserves the original question text (and source), and the dispatch loop
still produces its one record for every other queue entry — a solver failure
never terminates the loop. -/
theorem solver_failure_isolated
    (uSolve : String → Except String Universal.SolverResponse)
    (queue : List Controller.QuestionData) (i : ℕ)
    (qd : Controller.QuestionData) (e : String)
    (hq : queue[i]? = some qd) (herr : uSolve qd.text = .error e) :
    (Controller.solverLoop uSolve queue).length = queue.length ∧
    (Controller.solverLoop uSolve queue)[i]? =
      some (qd, .err e qd.text qd.source) ∧
    ∀ (j : ℕ) qd', queue[j]? = some qd' →
      (Controller.solverLoop uSolve queue)[j]? =
        some (qd', Controller.solveQuestion uSolve qd') := by
  rw [solverLoop_eq_map]
  refine ⟨by simp, ?_, ?_⟩
  · simp [hq, Controller.solveQuestion, herr]
  · intro j qd' hj
    simp [hj]

/-- Witness for `solver_failure_isolated`: an always-raising solver over a
two-entry queue fails on the first entry and the second is still
processed. -/
theorem solver_failure_isolated_witness :
    (Controller.solverLoop (fun _ => .error "boom")
        [⟨"Explain OOP concepts", "screen"⟩,
         ⟨"What is a deadlock", "voice"⟩]).length =
      ([⟨"Explain OOP concepts", "screen"⟩,
        ⟨"What is a deadlock", "voice"⟩] :
          List Controller.QuestionData).length ∧
    (Controller.solverLoop (fun _ => .error "boom")
        [⟨"Explain OOP concepts", "screen"⟩,
         ⟨"What is a deadlock", "voice"⟩])[0]? =
      some (⟨"Explain OOP concepts", "screen"⟩,
        .err "boom" "Explain OOP concepts" "screen") ∧
    ∀ (j : ℕ) qd', ([⟨"Explain OOP concepts", "screen"⟩,
        ⟨"What is a deadlock", "voice"⟩] :
          List Controller.QuestionData)[j]? = some qd' →
      (Controller.solverLoop (fun _ => .error "boom")
          [⟨"Explain OOP concepts", "screen"⟩,
           ⟨"What is a deadlock", "voice"⟩])[j]? =
        some (qd', Controller.solveQuestion (fun _ => .error "boom") qd') :=
  solver_failure_isolated (fun _ => .error "boom")
    [⟨"Explain OOP concepts", "screen"⟩, ⟨"What is a deadlock", "voice"⟩]
    0 ⟨"Explain OOP concepts", "screen"⟩ "boom" rfl rfl

/-- **C8 counterexample.** On
`"a basic problem: optimize complex advanced cases"` the easy bucket scores
`1` and the hard bucket scores `3` (medium scores `0`), so the bucket with
the strictly greatest indicator score is hard — yet `assess_difficulty`
returns `"Easy"`, because it takes the first level in dict order with any
match rather than the greatest-scoring one. -/
theorem assess_difficulty_counterexample :
    Universal.assessDifficulty
        (pyLower "a basic problem: optimize complex advanced cases".data) =
      "Easy" ∧
    Universal.indicatorScore Universal.easyIndicators
        (pyLower "a basic problem: optimize complex advanced cases".data) = 1 ∧
    Universal.indicatorScore Universal.mediumIndicators
        (pyLower "a basic problem: optimize complex advanced cases".data) = 0 ∧
    Universal.indicatorScore Universal.hardIndicators
        (pyLower "a basic problem: optimize complex advanced cases".data) = 3 :=
  ⟨rfl, by decide, by decide, by decide⟩

/-- **C8 amended.** The assigned difficulty is the first level in the fixed
dict order easy → medium → hard with at least one indicator-word occurrence
(capitalized by `.title()`), not the greatest-scoring bucket; in particular,
when every bucket scores zero the difficulty still defaults to `"Medium"` as
the claim states. -/
theorem assess_difficulty_first_match (question : List Char) :
    Universal.assessDifficulty question =
      (if Universal.easyIndicators.any (fun i => occursIn i question) then
        "Easy"
      else if Universal.mediumIndicators.any (fun i => occursIn i question) then
        "Medium"
      else if Universal.hardIndicators.any (fun i => occursIn i question) then
        "Hard"
      else "Medium") ∧
    ((∀ level ∈ Universal.difficultyIndicators,
        Universal.indicatorScore level.2 question = 0) →
      Universal.assessDifficulty question = "Medium") := by
  have hfirst : Universal.assessDifficulty question =
      (if Universal.easyIndicators.any (fun i => occursIn i question) then
        "Easy"
      else if Universal.mediumIndicators.any (fun i => occursIn i question) then
        "Medium"
      else if Universal.hardIndicators.any (fun i => occursIn i question) then
        "Hard"
      else "Medium") := by
    unfold Universal.assessDifficulty Universal.difficultyIndicators
    cases he : Universal.easyIndicators.any (fun i => occursIn i question) <;>
      cases hm : Universal.mediumIndicators.any (fun i => occursIn i question) <;>
      cases hh : Universal.hardIndicators.any (fun i => occursIn i question) <;>
      simp [List.find?, he, hm, hh, Universal.pyTitle]
  refine ⟨hfirst, fun hz => ?_⟩
  have hany : ∀ l : List String, l.countP (fun i => occursIn i question) = 0 →
      l.any (fun i => occursIn i question) = false := by
    intro l hl
    rw [List.any_eq_false]
    intro x hx
    exact (List.countP_eq_zero.mp hl) x hx
  rw [hfirst,
    hany _ (hz ("easy", Universal.easyIndicators)
      (by simp [Universal.difficultyIndicators])),
    hany _ (hz ("medium", Universal.mediumIndicators)
      (by simp [Universal.difficultyIndicators])),
    hany _ (hz ("hard", Universal.hardIndicators)
      (by simp [Universal.difficultyIndicators]))]
  simp

/-- Witness for `assess_difficulty_first_match` at
`"what is a red black tree"` (no indicator occurs): difficulty defaults to
`"Medium"`. -/
theorem assess_difficulty_first_match_witness :
    Universal.assessDifficulty (pyLower "what is a red black tree".data) =
      "Medium" :=
  (assess_difficulty_first_match
      (pyLower "what is a red black tree".data)).2 (by decide)

/-!
### Properties of Python `max(keys, key=f)`

`pyMax` keeps the running best and replaces it only on a strict increase, so
it returns the first element attaining the maximum — the tie-break of both
classifiers is therefore the iteration order of their score dicts.
-/

theorem pyMax_append {α β : Type} [LinearOrder β] (f : α → β) (x : α)
    (l₁ l₂ : List α) :
    pyMax f x (l₁ ++ l₂) = pyMax f (pyMax f x l₁) l₂ := by
  induction l₁ generalizing x with
  | nil => rfl
  | cons a t ih => simp [pyMax, ih]

theorem pyMax_mem {α β : Type} [LinearOrder β] (f : α → β) (x : α)
    (l : List α) : pyMax f x l = x ∨ pyMax f x l ∈ l := by
  induction l generalizing x with
  | nil => exact Or.inl rfl
  | cons a t ih =>
    simp only [pyMax]
    by_cases hxa : f x < f a
    · rw [if_pos hxa]
      rcases ih a with h | h
      · exact Or.inr (by rw [h]; exact List.mem_cons_self a t)
      · exact Or.inr (List.mem_cons_of_mem a h)
    · rw [if_neg hxa]
      rcases ih x with h | h
      · exact Or.inl h
      · exact Or.inr (List.mem_cons_of_mem a h)

theorem pyMax_le {α β : Type} [LinearOrder β] (f : α → β) (x : α)
    (l : List α) :
    f x ≤ f (pyMax f x l) ∧ ∀ k ∈ l, f k ≤ f (pyMax f x l) := by
  induction l generalizing x with
  | nil => exact ⟨le_refl _, by simp⟩
  | cons a t ih =>
    simp only [pyMax]
    by_cases hxa : f x < f a
    · rw [if_pos hxa]
      obtain ⟨h1, h2⟩ := ih a
      refine ⟨le_of_lt (lt_of_lt_of_le hxa h1), ?_⟩
      intro k hk
      rcases List.mem_cons.mp hk with rfl | hk
      · exact h1
      · exact h2 k hk
    · rw [if_neg hxa]
      obtain ⟨h1, h2⟩ := ih x
      refine ⟨h1, ?_⟩
      intro k hk
      rcases List.mem_cons.mp hk with rfl | hk
      · exact le_trans (not_lt.mp hxa) h1
      · exact h2 k hk

theorem pyMax_eq_of_le {α β : Type} [LinearOrder β] (f : α → β) (x : α)
    (l : List α) (h : ∀ k ∈ l, f k ≤ f x) : pyMax f x l = x := by
  induction l with
  | nil => rfl
  | cons a t ih =>
    simp only [pyMax]
    rw [if_neg (not_lt.mpr (h a (List.mem_cons_self a t)))]
    exact ih fun k hk => h k (List.mem_cons_of_mem a hk)

/-- The first-maximum law: if `a` attains the maximum of `f` over `x :: l`
and sits strictly before `b` in that (duplicate-free) list, then Python's
`max` never returns `b` — the earlier of two tied keys wins. -/
theorem pyMax_ne_of_earlier_max {α β : Type} [LinearOrder β] [DecidableEq α]
    (f : α → β) (x : α) (l : List α) (a b : α)
    (hnd : (x :: l).Nodup) (ha : a ∈ x :: l) (hb : b ∈ x :: l)
    (hidx : (x :: l).indexOf a < (x :: l).indexOf b)
    (hmax : ∀ k ∈ x :: l, f k ≤ f a) :
    pyMax f x l ≠ b := by
  have hbx : b ≠ x := by
    rintro rfl
    rw [List.indexOf_cons_self] at hidx
    omega
  have hbl : b ∈ l := by
    rcases List.mem_cons.mp hb with rfl | h
    · exact absurd rfl hbx
    · exact h
  obtain ⟨l₁, l₂, rfl⟩ := List.append_of_mem hbl
  have hshape : x :: (l₁ ++ b :: l₂) = (x :: l₁) ++ (b :: l₂) := by simp
  have hbnotin : b ∉ x :: l₁ := by
    intro hmem
    rw [hshape] at hnd
    exact (List.disjoint_of_nodup_append hnd) hmem (List.mem_cons_self b l₂)
  have hidxb : (x :: (l₁ ++ b :: l₂)).indexOf b = (x :: l₁).length := by
    rw [hshape, List.indexOf_append_of_not_mem hbnotin, List.indexOf_cons_self]
    omega
  have hal : a ∈ x :: l₁ := by
    by_contra hna
    have : (x :: (l₁ ++ b :: l₂)).indexOf a =
        (x :: l₁).length + (b :: l₂).indexOf a := by
      rw [hshape, List.indexOf_append_of_not_mem hna]
    omega
  have hsplit : pyMax f x (l₁ ++ b :: l₂) = pyMax f (pyMax f x l₁) (b :: l₂) :=
    pyMax_append f x l₁ (b :: l₂)
  have hmmem : pyMax f x l₁ ∈ x :: l₁ := by
    rcases pyMax_mem f x l₁ with h | h
    · rw [h]; exact List.mem_cons_self x l₁
    · exact List.mem_cons_of_mem x h
  have hfam : f a ≤ f (pyMax f x l₁) := by
    rcases List.mem_cons.mp hal with rfl | h
    · exact (pyMax_le f a l₁).1
    · exact (pyMax_le f x l₁).2 a h
  have hrest : pyMax f (pyMax f x l₁) (b :: l₂) = pyMax f x l₁ := by
    apply pyMax_eq_of_le
    intro k hk
    have hkmem : k ∈ x :: (l₁ ++ b :: l₂) :=
      List.mem_cons_of_mem x (List.mem_append_right l₁ hk)
    exact le_trans (hmax k hkmem) hfam
  rw [hsplit, hrest]
  intro hcontra
  exact hbnotin (hcontra ▸ hmmem)

theorem routerScore_eq_half (qt : QuestionType) (textLower : List Char) :
    routerScore qt textLower = (routerScoreHalf qt textLower : ℚ) / 2 := by
  rw [routerScore, routerScoreHalf]
  push_cast
  ring

theorem routerScore_lt_iff (a b : QuestionType) (textLower : List Char) :
    routerScore a textLower < routerScore b textLower ↔
      routerScoreHalf a textLower < routerScoreHalf b textLower := by
  rw [routerScore_eq_half, routerScore_eq_half,
    div_lt_div_iff_of_pos_right (by norm_num : (0 : ℚ) < 2), Nat.cast_lt]

theorem routerScore_le_iff (a b : QuestionType) (textLower : List Char) :
    routerScore a textLower ≤ routerScore b textLower ↔
      routerScoreHalf a textLower ≤ routerScoreHalf b textLower := by
  rw [routerScore_eq_half, routerScore_eq_half,
    div_le_div_iff_of_pos_right (by norm_num : (0 : ℚ) < 2), Nat.cast_le]

/-- `routerBestType` spelled out: Python's running-max fold over the four
score-dict keys. -/
theorem routerBestType_eval (tl : List Char) :
    routerBestType tl =
      (if routerScore
          (if routerScore
              (if routerScore .DSA tl < routerScore .DBMS tl then
                QuestionType.DBMS else .DSA) tl < routerScore .OOP tl then
            QuestionType.OOP
          else if routerScore .DSA tl < routerScore .DBMS tl then
            QuestionType.DBMS else .DSA) tl <
          routerScore .SYSTEM_DESIGN tl then QuestionType.SYSTEM_DESIGN
      else if routerScore
          (if routerScore .DSA tl < routerScore .DBMS tl then
            QuestionType.DBMS else .DSA) tl < routerScore .OOP tl then
        QuestionType.OOP
      else if routerScore .DSA tl < routerScore .DBMS tl then
        QuestionType.DBMS else .DSA) := rfl

theorem classifyQuestion_long (text : String)
    (hlen : ¬ (pyStrip text.data).length < 10) :
    classifyQuestion text =
      if routerConfidence (pyLower text.data) < 1 / 10 then
        (QuestionType.UNKNOWN, routerConfidence (pyLower text.data))
      else
        (routerBestType (pyLower text.data),
          routerConfidence (pyLower text.data)) := by
  unfold classifyQuestion
  rw [if_neg hlen]

theorem classifyQuestion_fst (text : String) :
    (classifyQuestion text).1 = .UNKNOWN ∨
    (classifyQuestion text).1 = routerBestType (pyLower text.data) := by
  unfold classifyQuestion
  split_ifs <;> simp

theorem totalPatterns_cast : (totalPatterns : ℚ) = 44 := by
  rw [show totalPatterns = 44 from by decide]
  norm_num

/-- **C5 counterexample.** On the text
`"sql acid primary key inner join distinct hld lld scalability throughput
soap cdn"` the DBMS and SYSTEM_DESIGN scores tie at the nonzero maximum
(`6.5` each, DSA and OOP score `0`), and the claimed fixed priority order
puts SYSTEM_DESIGN before DBMS — yet `classify_question` returns DBMS,
because its tie-break is the `scores`-dict insertion order
`[DSA, DBMS, OOP, SYSTEM_DESIGN]`, not the claimed order. -/
theorem classify_tiebreak_counterexample :
    routerScore .SYSTEM_DESIGN
        (pyLower "sql acid primary key inner join distinct hld lld scalability throughput soap cdn".data) =
      routerScore .DBMS
        (pyLower "sql acid primary key inner join distinct hld lld scalability throughput soap cdn".data) ∧
    0 < routerScore .DBMS
        (pyLower "sql acid primary key inner join distinct hld lld scalability throughput soap cdn".data) ∧
    claimedTieBreakOrder.indexOf QuestionType.SYSTEM_DESIGN <
      claimedTieBreakOrder.indexOf QuestionType.DBMS ∧
    (classifyQuestion
        "sql acid primary key inner join distinct hld lld scalability throughput soap cdn").1 =
      .DBMS := by
  have hB : routerScoreHalf .DBMS
      (pyLower "sql acid primary key inner join distinct hld lld scalability throughput soap cdn".data) = 13 := by
    decide
  have hS : routerScoreHalf .SYSTEM_DESIGN
      (pyLower "sql acid primary key inner join distinct hld lld scalability throughput soap cdn".data) = 13 := by
    decide
  have sB : routerScore .DBMS
      (pyLower "sql acid primary key inner join distinct hld lld scalability throughput soap cdn".data) = 13 / 2 := by
    rw [routerScore_eq_half, hB]
    norm_num
  have sS : routerScore .SYSTEM_DESIGN
      (pyLower "sql acid primary key inner join distinct hld lld scalability throughput soap cdn".data) = 13 / 2 := by
    rw [routerScore_eq_half, hS]
    norm_num
  have c1 : routerScore .DSA
      (pyLower "sql acid primary key inner join distinct hld lld scalability throughput soap cdn".data) <
      routerScore .DBMS
      (pyLower "sql acid primary key inner join distinct hld lld scalability throughput soap cdn".data) := by
    rw [routerScore_lt_iff]
    decide
  have c2 : ¬ routerScore .DBMS
      (pyLower "sql acid primary key inner join distinct hld lld scalability throughput soap cdn".data) <
      routerScore .OOP
      (pyLower "sql acid primary key inner join distinct hld lld scalability throughput soap cdn".data) := by
    rw [routerScore_lt_iff]
    decide
  have c3 : ¬ routerScore .DBMS
      (pyLower "sql acid primary key inner join distinct hld lld scalability throughput soap cdn".data) <
      routerScore .SYSTEM_DESIGN
      (pyLower "sql acid primary key inner join distinct hld lld scalability throughput soap cdn".data) := by
    rw [routerScore_lt_iff]
    decide
  have hbest : routerBestType
      (pyLower "sql acid primary key inner join distinct hld lld scalability throughput soap cdn".data) =
      .DBMS := by
    rw [routerBestType_eval, if_pos c1, if_neg c2, if_neg c3]
  have hconf : ¬ routerConfidence
      (pyLower "sql acid primary key inner join distinct hld lld scalability throughput soap cdn".data) <
      1 / 10 := by
    rw [routerConfidence, hbest, sB, totalPatterns_cast]
    norm_num [min_def]
  have hlen : ¬ (pyStrip
      "sql acid primary key inner join distinct hld lld scalability throughput soap cdn".data).length < 10 := by
    decide
  refine ⟨by rw [sS, sB], by rw [sB]; norm_num, by decide, ?_⟩
  rw [classifyQuestion_long _ hlen, if_neg hconf]
  exact hbest

/-- **C7 counterexample.** `"tell me about acid"` has a nonzero DBMS score
(`1.5`), but `classify_question` still answers UNKNOWN, because the
normalized confidence `1.5 / 44` falls below the `0.1` threshold — an input
with a nonzero category score can be classified UNKNOWN. -/
theorem classify_unknown_counterexample :
    0 < routerScore .DBMS (pyLower "tell me about acid".data) ∧
    (classifyQuestion "tell me about acid").1 = .UNKNOWN := by
  have hB : routerScoreHalf .DBMS (pyLower "tell me about acid".data) = 3 := by
    decide
  have sB : routerScore .DBMS (pyLower "tell me about acid".data) = 3 / 2 := by
    rw [routerScore_eq_half, hB]
    norm_num
  have c1 : routerScore .DSA (pyLower "tell me about acid".data) <
      routerScore .DBMS (pyLower "tell me about acid".data) := by
    rw [routerScore_lt_iff]
    decide
  have c2 : ¬ routerScore .DBMS (pyLower "tell me about acid".data) <
      routerScore .OOP (pyLower "tell me about acid".data) := by
    rw [routerScore_lt_iff]
    decide
  have c3 : ¬ routerScore .DBMS (pyLower "tell me about acid".data) <
      routerScore .SYSTEM_DESIGN (pyLower "tell me about acid".data) := by
    rw [routerScore_lt_iff]
    decide
  have hbest : routerBestType (pyLower "tell me about acid".data) = .DBMS := by
    rw [routerBestType_eval, if_pos c1, if_neg c2, if_neg c3]
  have hconf : routerConfidence (pyLower "tell me about acid".data) < 1 / 10 := by
    rw [routerConfidence, hbest, sB, totalPatterns_cast]
    norm_num [min_def]
  have hlen : ¬ (pyStrip "tell me about acid".data).length < 10 := by decide
  refine ⟨by rw [sB]; norm_num, ?_⟩
  rw [classifyQuestion_long _ hlen, if_pos hconf]

/-- **C5 amended.** Ties for the highest score resolve deterministically to
the key that comes first in the classifier's own score-dict insertion order,
not to the order claimed in the spec: in `QuestionRouter.classify_question`
that order is `[DSA, DBMS, OOP, SYSTEM_DESIGN]` (so a DBMS/SYSTEM_DESIGN tie
yields DBMS, unlike the claimed order), while in
`UniversalSolver.classify_question_type` it is
`[DSA, SYSTEM_DESIGN, DBMS, OOPS, NETWORKS, OS]`, which coincides with the
claimed order restricted to its categories.  In both classifiers a key that
attains the maximal score is never beaten by a key listed after it. -/
theorem classifier_tiebreak_insertion_order :
    (∀ (text : String) (a b : QuestionType),
        a ∈ routerScoreKeys → b ∈ routerScoreKeys →
        routerScoreKeys.indexOf a < routerScoreKeys.indexOf b →
        (∀ k ∈ routerScoreKeys,
          routerScore k (pyLower text.data) ≤
            routerScore a (pyLower text.data)) →
        (classifyQuestion text).1 = .UNKNOWN ∨
          (classifyQuestion text).1 ≠ b) ∧
    (∀ (question : List Char) (a b : Universal.UQuestionType),
        a ∈ Universal.classifierKeys → b ∈ Universal.classifierKeys →
        Universal.classifierKeys.indexOf a <
          Universal.classifierKeys.indexOf b →
        (∀ k ∈ Universal.classifierKeys,
          Universal.keywordCount k question ≤
            Universal.keywordCount a question) →
        Universal.classifyQuestionType question ≠ b) := by
  constructor
  · intro text a b ha hb hidx hmax
    rcases classifyQuestion_fst text with h | h
    · exact Or.inl h
    · refine Or.inr ?_
      rw [h, routerBestType]
      exact pyMax_ne_of_earlier_max
        (fun qt => routerScore qt (pyLower text.data)) .DSA
        [.DBMS, .OOP, .SYSTEM_DESIGN] a b (by decide) ha hb hidx hmax
  · intro question a b ha hb hidx hmax
    unfold Universal.classifyQuestionType
    split_ifs with hpos
    · rw [Universal.universalBestMatch]
      exact pyMax_ne_of_earlier_max
        (fun qt => Universal.keywordCount qt question) .DSA
        [.SYSTEM_DESIGN, .DBMS, .OOPS, .NETWORKS, .OS] a b (by decide)
        ha hb hidx hmax
    · have hng : ∀ k ∈ Universal.classifierKeys,
          k ≠ Universal.UQuestionType.GENERAL := by decide
      intro hcontra
      exact hng b hb hcontra.symm

/-- Witness for `classifier_tiebreak_insertion_order`: on the tied text of
the C5 counterexample, DBMS attains the maximum and sits before
SYSTEM_DESIGN in the router's insertion order, so SYSTEM_DESIGN is never
returned. -/
theorem classifier_tiebreak_insertion_order_witness :
    (classifyQuestion
        "sql acid primary key inner join distinct hld lld scalability throughput soap cdn").1 =
      .UNKNOWN ∨
    (classifyQuestion
        "sql acid primary key inner join distinct hld lld scalability throughput soap cdn").1 ≠
      QuestionType.SYSTEM_DESIGN := by
  refine classifier_tiebreak_insertion_order.1
    "sql acid primary key inner join distinct hld lld scalability throughput soap cdn"
    .DBMS .SYSTEM_DESIGN (by decide) (by decide) (by decide) ?_
  intro k hk
  fin_cases hk <;> rw [routerScore_le_iff] <;> decide

/-- **C7 amended.** All-zero scores still imply UNKNOWN, but UNKNOWN is
returned exactly when the stripped text is shorter than 10 characters or the
best score is below `4.4` (normalized confidence below `0.1`) — so an input
with a nonzero category score can still be classified UNKNOWN.  When a
category is returned it is the first maximum of the scores. -/
theorem classify_unknown_threshold (text : String) :
    ((∀ k ∈ routerScoreKeys, routerScore k (pyLower text.data) = 0) →
      (classifyQuestion text).1 = .UNKNOWN) ∧
    ((classifyQuestion text).1 ≠ .UNKNOWN ↔
      ¬ (pyStrip text.data).length < 10 ∧
        22 / 5 ≤ routerScore (routerBestType (pyLower text.data))
          (pyLower text.data)) ∧
    ((classifyQuestion text).1 ≠ .UNKNOWN →
      (classifyQuestion text).1 = routerBestType (pyLower text.data)) := by
  have hbestmem : routerBestType (pyLower text.data) ∈ routerScoreKeys := by
    rw [routerBestType]
    rcases pyMax_mem (fun qt => routerScore qt (pyLower text.data)) .DSA
      [.DBMS, .OOP, .SYSTEM_DESIGN] with h | h
    · rw [h]
      exact List.mem_cons_self _ _
    · exact List.mem_cons_of_mem _ h
  have hbu : routerBestType (pyLower text.data) ≠ .UNKNOWN := by
    have hng : ∀ k ∈ routerScoreKeys, k ≠ QuestionType.UNKNOWN := by decide
    exact hng _ hbestmem
  have hiff : routerConfidence (pyLower text.data) < 1 / 10 ↔
      routerScore (routerBestType (pyLower text.data)) (pyLower text.data) <
        22 / 5 := by
    rw [routerConfidence, totalPatterns_cast, min_lt_iff]
    constructor
    · rintro (h | h)
      · rw [div_lt_iff₀ (by norm_num : (0 : ℚ) < 44)] at h
        linarith
      · norm_num at h
    · intro h
      exact Or.inl (by rw [div_lt_iff₀ (by norm_num : (0 : ℚ) < 44)]; linarith)
  by_cases hlen : (pyStrip text.data).length < 10
  · have hres : (classifyQuestion text).1 = .UNKNOWN := by
      unfold classifyQuestion
      rw [if_pos hlen]
    exact ⟨fun _ => hres,
      iff_of_false (by simp [hres]) fun hc => hc.1 hlen,
      fun hne => absurd hres hne⟩
  · by_cases hconf : routerConfidence (pyLower text.data) < 1 / 10
    · have hres : (classifyQuestion text).1 = .UNKNOWN := by
        rw [classifyQuestion_long text hlen, if_pos hconf]
      have hlt := hiff.mp hconf
      exact ⟨fun _ => hres,
        iff_of_false (by simp [hres]) fun hc => absurd hlt (not_lt.mpr hc.2),
        fun hne => absurd hres hne⟩
    · have hres : (classifyQuestion text).1 =
          routerBestType (pyLower text.data) := by
        rw [classifyQuestion_long text hlen, if_neg hconf]
      have hge : 22 / 5 ≤ routerScore (routerBestType (pyLower text.data))
          (pyLower text.data) :=
        not_lt.mp fun hcon => hconf (hiff.mpr hcon)
      refine ⟨fun hz => ?_, ?_, fun _ => hres⟩
      · exfalso
        have h0 := hz _ hbestmem
        rw [h0] at hge
        norm_num at hge
      · exact iff_of_true (by rw [hres]; exact hbu) ⟨hlen, hge⟩

/-- Witness for `classify_unknown_threshold`:
`"how is your day today friend"` has all-zero scores and is classified
UNKNOWN. -/
theorem classify_unknown_threshold_witness :
    (classifyQuestion "how is your day today friend").1 = .UNKNOWN := by
  refine (classify_unknown_threshold "how is your day today friend").1 ?_
  intro k hk
  fin_cases hk <;>
    · rw [routerScore_eq_half]
      norm_num
      decide

/-!
### Verification of the `heapq` embedding

The queue stores `(-priority, routing_info)` tuples, so "higher priority
first" is "smaller key first".  With pairwise-distinct keys no comparison
ever reaches the unorderable dict payloads, and `heappop` returns the root,
which the heap invariant makes a minimal-key entry; the equal-priority case
is settled separately by the C4 counterexample.

The definitions transcribe `heapq.py`'s pure-Python `_siftdown`/`_siftup`,
whose loops move values into a hole and plug it afterwards.  CPython's
`_heapq` C accelerator swaps instead of holing, so a list observed while a
sift is mid-flight can differ between the two; they always agree on success
results, and on the list left behind by a `TypeError` raised at the first
`newitem < parent` comparison of a `_siftdown` phase — which is where every
tie in the theorems below raises, the hole having just been plugged.  The
concrete error states asserted here were cross-checked against both
implementations.
-/

namespace Heapq

theorem cmpLt_ok_true {a b : Entry} (h : a.1 < b.1) : cmpLt a b = .ok true := by
  rw [cmpLt, if_pos h]

theorem cmpLt_ok_false {a b : Entry} (h : b.1 < a.1) : cmpLt a b = .ok false := by
  rw [cmpLt, if_neg (by omega), if_pos h]

theorem keyAt_set_self (l : List Entry) (i : ℕ) (a : Entry)
    (h : i < l.length) : keyAt (l.set i a) i = a.1 := by
  rw [keyAt, List.getD_eq_getElem _ _ (by simpa using h),
    List.getElem_set_self]

theorem keyAt_set_ne (l : List Entry) (i j : ℕ) (a : Entry)
    (hij : i ≠ j) : keyAt (l.set i a) j = keyAt l j := by
  rw [keyAt, keyAt]
  by_cases hj : j < l.length
  · rw [List.getD_eq_getElem _ _ (show j < (l.set i a).length by simpa using hj),
      List.getD_eq_getElem _ _ hj, List.getElem_set_ne hij]
  · rw [List.getD_eq_default _ _ (show (l.set i a).length ≤ j by
        simp
        omega),
      List.getD_eq_default _ _ (by omega)]

theorem keys_ne (h : List Entry) (hnd : keysNodup h) {i j : ℕ}
    (hi : i < h.length) (hj : j < h.length) (hij : i ≠ j) :
    keyAt h i ≠ keyAt h j := by
  intro hcon
  rw [keyAt, keyAt, List.getD_eq_getElem _ _ hi, List.getD_eq_getElem _ _ hj]
    at hcon
  have hi' : i < (h.map Prod.fst).length := by simpa using hi
  have hj' : j < (h.map Prod.fst).length := by simpa using hj
  have : (h.map Prod.fst)[i] = (h.map Prod.fst)[j] := by
    rw [List.getElem_map, List.getElem_map]
    exact hcon
  exact hij ((hnd.getElem_inj_iff).mp this)

theorem set_perm_cons_eraseIdx (l : List Entry) (i : ℕ) (a : Entry)
    (h : i < l.length) : (l.set i a).Perm (a :: l.eraseIdx i) := by
  rw [List.set_eq_take_cons_drop a h, List.eraseIdx_eq_take_drop_succ]
  exact List.perm_middle

theorem set_getD_self (l : List Entry) (i : ℕ) (h : i < l.length) :
    l.set i (l.getD i (0, 0)) = l := by
  induction l generalizing i with
  | nil => rfl
  | cons b t ih =>
    cases i with
    | zero => rfl
    | succ i =>
      show b :: t.set i ((b :: t).getD (i + 1) (0, 0)) = b :: t
      rw [show (b :: t).getD (i + 1) (0, 0) = t.getD i (0, 0) from rfl]
      rw [ih i (by simpa using h)]

theorem self_perm_cons_eraseIdx (l : List Entry) (i : ℕ) (h : i < l.length) :
    l.Perm (l.getD i (0, 0) :: l.eraseIdx i) := by
  have h2 := set_perm_cons_eraseIdx l i (l.getD i (0, 0)) h
  rwa [set_getD_self l i h] at h2

theorem set_set_perm (l : List Entry) (i j : ℕ) (a : Entry)
    (hi : i < l.length) (hj : j < l.length) (hij : i ≠ j) :
    ((l.set i (l.getD j (0, 0))).set j a).Perm (l.set i a) := by
  induction l generalizing i j with
  | nil => exact absurd hi (by simp)
  | cons b t ih =>
    cases i with
    | zero =>
      cases j with
      | zero => exact absurd rfl hij
      | succ j =>
        have hj' : j < t.length := by simpa using hj
        show (t.getD j (0, 0) :: t.set j a).Perm (a :: t)
        exact (((set_perm_cons_eraseIdx t j a hj').cons _).trans
          (List.Perm.swap a (t.getD j (0, 0)) (t.eraseIdx j))).trans
          (((self_perm_cons_eraseIdx t j hj').symm).cons _)
    | succ i =>
      have hi' : i < t.length := by simpa using hi
      cases j with
      | zero =>
        show (a :: t.set i b).Perm (b :: t.set i a)
        exact (((set_perm_cons_eraseIdx t i b hi').cons _).trans
          (List.Perm.swap b a (t.eraseIdx i))).trans
          (((set_perm_cons_eraseIdx t i a hi').symm).cons _)
      | succ j =>
        have hj' : j < t.length := by simpa using hj
        show (b :: (t.set i ((b :: t).getD (j + 1) (0, 0))).set j a).Perm
          (b :: t.set i a)
        rw [show (b :: t).getD (j + 1) (0, 0) = t.getD j (0, 0) from rfl]
        exact (ih i j hi' hj' (by omega)).cons b

theorem keysNodup_of_perm {l l' : List Entry} (hp : l.Perm l')
    (hnd : keysNodup l) : keysNodup l' :=
  (hp.map Prod.fst).nodup hnd

theorem keyAt_zero_le (h : List Entry) (hinv : heapInv h) :
    ∀ i, i < h.length → keyAt h 0 ≤ keyAt h i := by
  intro i
  induction i using Nat.strong_induction_on with
  | _ i ih =>
    intro hi
    rcases Nat.eq_zero_or_pos i with rfl | hpos
    · exact le_refl _
    · exact le_trans (ih ((i - 1) / 2) (by omega) (by omega)) (hinv i hi hpos)

theorem mem_key_le (h : List Entry) (hinv : heapInv h) {e : Entry}
    (he : e ∈ h) : keyAt h 0 ≤ e.1 := by
  obtain ⟨i, hi, rfl⟩ := List.mem_iff_getElem.mp he
  have h2 : keyAt h i = (h[i]).1 := by
    rw [keyAt, List.getD_eq_getElem _ _ hi]
  rw [← h2]
  exact keyAt_zero_le h hinv i hi

/-- Writing the new item into the hole restores the full heap invariant,
provided the new item is at least the hole's parent and at most the hole's
children. -/
theorem holeInv_set_heapInv (heap : List Entry) (pos : ℕ) (newitem : Entry)
    (hhole : HoleInv heap pos) (hnew : NewitemLe heap pos newitem)
    (hstop : 0 < pos → keyAt heap ((pos - 1) / 2) ≤ newitem.1) :
    heapInv (heap.set pos newitem) := by
  intro c hc hcpos
  have hc' : c < heap.length := by simpa using hc
  by_cases hcp : c = pos
  · subst hcp
    have hpar : (c - 1) / 2 ≠ c := by omega
    rw [keyAt_set_ne _ _ _ _ (by omega), keyAt_set_self _ _ _ hc']
    exact hstop hcpos
  · by_cases hpc : (c - 1) / 2 = pos
    · rw [hpc, keyAt_set_self _ _ _ hhole.bounded,
        keyAt_set_ne _ _ _ _ (Ne.symm hcp)]
      exact hnew c hc' hpc hcpos
    · rw [keyAt_set_ne _ _ _ _ (by omega), keyAt_set_ne _ _ _ _ (Ne.symm hcp)]
      exact hhole.ord c hc' hcpos hcp hpc

theorem siftdownLoop_succ_lt (newitem : Entry) (fuel pos : ℕ) (heap : List Entry)
    (h : 0 < pos) :
    siftdownLoop newitem 0 (fuel + 1) pos heap =
      match cmpLt newitem (heap.getD ((pos - 1) / 2) (0, 0)) with
      | .error _ => .error heap
      | .ok true => siftdownLoop newitem 0 fuel ((pos - 1) / 2)
          (heap.set pos (heap.getD ((pos - 1) / 2) (0, 0)))
      | .ok false => .ok (heap.set pos newitem) := by
  rw [siftdownLoop, if_pos h]

/-- Moving the larger parent down into the hole moves the hole to the parent
position, preserving both sift-down loop invariants. -/
theorem holeInv_step_down (heap : List Entry) (pos : ℕ) (newitem : Entry)
    (hpos : 0 < pos) (hhole : HoleInv heap pos)
    (hlt : newitem.1 < keyAt heap ((pos - 1) / 2)) :
    HoleInv (heap.set pos (heap.getD ((pos - 1) / 2) (0, 0))) ((pos - 1) / 2) ∧
    NewitemLe (heap.set pos (heap.getD ((pos - 1) / 2) (0, 0))) ((pos - 1) / 2)
      newitem := by
  have hlen : pos < heap.length := hhole.bounded
  constructor
  · constructor
    · simp only [List.length_set]
      omega
    · intro c hc hcpos hcp hcpp
      have hc' : c < heap.length := by simpa using hc
      by_cases hceq : c = pos
      · subst hceq
        exact absurd rfl hcpp
      · by_cases hpeq : (c - 1) / 2 = pos
        · rw [hpeq, keyAt_set_self _ _ _ hlen,
            keyAt_set_ne _ _ _ _ (Ne.symm hceq)]
          exact hhole.par c hc' hpeq hpos
        · rw [keyAt_set_ne _ _ _ _ (Ne.symm hpeq),
            keyAt_set_ne _ _ _ _ (Ne.symm hceq)]
          exact hhole.ord c hc' hcpos hceq hpeq
    · intro c hc hcp hppos
      have hc' : c < heap.length := by simpa using hc
      rw [keyAt_set_ne _ _ _ _ (show pos ≠ ((pos - 1) / 2 - 1) / 2 by omega)]
      have hordp : keyAt heap (((pos - 1) / 2 - 1) / 2) ≤
          keyAt heap ((pos - 1) / 2) :=
        hhole.ord ((pos - 1) / 2) (by omega) hppos (by omega) (by omega)
      by_cases hceq : c = pos
      · subst hceq
        rw [keyAt_set_self _ _ _ hlen]
        exact hordp
      · rw [keyAt_set_ne _ _ _ _ (Ne.symm hceq)]
        have h2 := hhole.ord c hc' (by omega) hceq (by omega)
        rw [hcp] at h2
        exact le_trans hordp h2
  · intro c hc hcp hcpos
    have hc' : c < heap.length := by simpa using hc
    by_cases hceq : c = pos
    · subst hceq
      rw [keyAt_set_self _ _ _ hlen]
      exact le_of_lt hlt
    · rw [keyAt_set_ne _ _ _ _ (Ne.symm hceq)]
      have h2 := hhole.ord c hc' hcpos hceq (by omega)
      rw [hcp] at h2
      exact le_trans (le_of_lt hlt) h2

/-- Full specification of `_siftdown` with `startpos = 0` (the only start
position the repository uses): with enough fuel, a hole state with distinct
keys sifts down without a comparison error, to a heap that is a permutation
of plugging the new item into the hole and satisfies the heap invariant. -/
theorem siftdownLoop_spec (newitem : Entry) :
    ∀ fuel pos heap, pos ≤ fuel → HoleInv heap pos →
      NewitemLe heap pos newitem → keysNodup (heap.set pos newitem) →
      ∃ h', siftdownLoop newitem 0 fuel pos heap = .ok h' ∧
        h'.Perm (heap.set pos newitem) ∧ heapInv h' := by
  intro fuel
  induction fuel with
  | zero =>
    intro pos heap hfuel hhole hnew _
    have hpos : pos = 0 := by omega
    subst hpos
    exact ⟨heap.set 0 newitem, rfl, List.Perm.refl _,
      holeInv_set_heapInv heap 0 newitem hhole hnew
        (fun h => absurd h (by norm_num))⟩
  | succ fuel ih =>
    intro pos heap hfuel hhole hnew hnd
    rcases Nat.eq_zero_or_pos pos with rfl | hpos
    · refine ⟨heap.set 0 newitem, ?_, List.Perm.refl _,
        holeInv_set_heapInv heap 0 newitem hhole hnew
          (fun h => absurd h (by norm_num))⟩
      rw [siftdownLoop, if_neg (by omega)]
    · have hlen : pos < heap.length := hhole.bounded
      have hpne : pos ≠ (pos - 1) / 2 := by omega
      have hkne : newitem.1 ≠ keyAt heap ((pos - 1) / 2) := by
        have h1 := keys_ne (heap.set pos newitem) hnd
          (i := pos) (j := (pos - 1) / 2) (by simpa using hlen)
          (by simp only [List.length_set]; omega) hpne
        rwa [keyAt_set_self _ _ _ hlen, keyAt_set_ne _ _ _ _ hpne] at h1
      rcases lt_trichotomy newitem.1 (keyAt heap ((pos - 1) / 2)) with
        hlt | heq | hgt
      · have hstep := holeInv_step_down heap pos newitem hpos hhole hlt
        have hperm := set_set_perm heap pos ((pos - 1) / 2) newitem hlen
          (by omega) hpne
        obtain ⟨h', heq', hperm', hinv'⟩ :=
          ih ((pos - 1) / 2) (heap.set pos (heap.getD ((pos - 1) / 2) (0, 0)))
            (by omega) hstep.1 hstep.2
            (keysNodup_of_perm hperm.symm hnd)
        refine ⟨h', ?_, hperm'.trans hperm, hinv'⟩
        rw [siftdownLoop_succ_lt _ _ _ _ hpos, cmpLt_ok_true hlt]
        exact heq'
      · exact absurd heq hkne
      · refine ⟨heap.set pos newitem, ?_, List.Perm.refl _,
          holeInv_set_heapInv heap pos newitem hhole hnew
            (fun _ => le_of_lt hgt)⟩
        rw [siftdownLoop_succ_lt _ _ _ _ hpos, cmpLt_ok_false hgt]

/-- Moving the smaller child up into the hole moves the hole to that child's
position, preserving the hole invariant. -/
theorem holeInv_step_up (heap : List Entry) (pos cp : ℕ)
    (hhole : HoleInv heap pos)
    (hchild : cp = 2 * pos + 1 ∨ cp = 2 * pos + 2)
    (hcp : cp < heap.length)
    (hmin : ∀ c, c < heap.length → (c - 1) / 2 = pos → 0 < c → c ≠ cp →
      keyAt heap cp ≤ keyAt heap c) :
    HoleInv (heap.set pos (heap.getD cp (0, 0))) cp := by
  have hlen : pos < heap.length := hhole.bounded
  have hcppar : (cp - 1) / 2 = pos := by rcases hchild with h | h <;> omega
  have hcpgt : pos < cp := by rcases hchild with h | h <;> omega
  constructor
  · simpa using hcp
  · intro c hc hcpos hccp hcpar
    have hc' : c < heap.length := by simpa using hc
    by_cases hceq : c = pos
    · subst hceq
      rw [keyAt_set_self _ _ _ hlen,
        keyAt_set_ne _ _ _ _ (show c ≠ (c - 1) / 2 by omega)]
      exact hhole.par cp hcp hcppar hcpos
    · by_cases hpeq : (c - 1) / 2 = pos
      · rw [hpeq, keyAt_set_self _ _ _ hlen,
          keyAt_set_ne _ _ _ _ (Ne.symm hceq)]
        exact hmin c hc' hpeq hcpos hccp
      · rw [keyAt_set_ne _ _ _ _ (Ne.symm hpeq),
          keyAt_set_ne _ _ _ _ (Ne.symm hceq)]
        exact hhole.ord c hc' hcpos hceq hpeq
  · intro c hc hcpar hcppos
    have hc' : c < heap.length := by simpa using hc
    rw [hcppar, keyAt_set_self _ _ _ hlen,
      keyAt_set_ne _ _ _ _ (show pos ≠ c by omega)]
    have h2 := hhole.ord c hc' (by omega) (by omega) (by omega)
    rw [hcpar] at h2
    exact h2

/-- Full specification of the `while` loop of `_siftup`: with enough fuel, a
hole state with distinct keys drifts to a childless position without a
comparison error, preserving the hole invariant and the multiset of stored
entries (up to the hole's content). -/
theorem siftupLoop_spec (newitem : Entry) :
    ∀ fuel pos heap, heap.length ≤ fuel + pos → HoleInv heap pos →
      keysNodup (heap.set pos newitem) →
      ∃ pos' h', siftupLoop heap.length fuel pos heap = .ok (pos', h') ∧
        h'.length = heap.length ∧ ¬ 2 * pos' + 1 < heap.length ∧
        HoleInv h' pos' ∧
        ∀ a : Entry, (h'.set pos' a).Perm (heap.set pos a) := by
  intro fuel
  induction fuel with
  | zero =>
    intro pos heap hfuel hhole _
    exact absurd hhole.bounded (by omega)
  | succ fuel ih =>
    intro pos heap hfuel hhole hnd
    have hlen : pos < heap.length := hhole.bounded
    by_cases hch : 2 * pos + 1 < heap.length
    · have main : ∀ cp, (cp = 2 * pos + 1 ∨ cp = 2 * pos + 2) →
          cp < heap.length →
          (∀ c, c < heap.length → (c - 1) / 2 = pos → 0 < c → c ≠ cp →
            keyAt heap cp ≤ keyAt heap c) →
          ∃ pos' h',
            siftupLoop heap.length fuel cp
              (heap.set pos (heap.getD cp (0, 0))) = .ok (pos', h') ∧
            h'.length = heap.length ∧ ¬ 2 * pos' + 1 < heap.length ∧
            HoleInv h' pos' ∧
            ∀ a : Entry, (h'.set pos' a).Perm (heap.set pos a) := by
        intro cp hchild hcp hmin
        have hppne : pos ≠ cp := by rcases hchild with h | h <;> omega
        have hcpge : pos + 1 ≤ cp := by rcases hchild with h | h <;> omega
        have hperm := fun a : Entry => set_set_perm heap pos cp a hlen hcp hppne
        obtain ⟨pos', h', heq', hlen', hnoch, hhole', hperm'⟩ :=
          ih cp (heap.set pos (heap.getD cp (0, 0)))
            (by simp only [List.length_set]; omega)
            (holeInv_step_up heap pos cp hhole hchild hcp hmin)
            (keysNodup_of_perm (hperm newitem).symm hnd)
        rw [List.length_set] at heq' hlen' hnoch
        exact ⟨pos', h', heq', hlen', hnoch, hhole',
          fun a => (hperm' a).trans (hperm a)⟩
      by_cases hr : 2 * pos + 1 + 1 < heap.length
      · have hkne : keyAt heap (2 * pos + 1) ≠ keyAt heap (2 * pos + 1 + 1) := by
          have h1 := keys_ne (heap.set pos newitem) hnd
            (i := 2 * pos + 1) (j := 2 * pos + 1 + 1)
            (by simpa using hch) (by simpa using hr) (by omega)
          rwa [keyAt_set_ne _ _ _ _ (by omega),
            keyAt_set_ne _ _ _ _ (by omega)] at h1
        rcases lt_or_gt_of_ne hkne with hk | hk
        · obtain ⟨pos', h', heq', hlen', hnoch, hhole', hperm'⟩ :=
            main (2 * pos + 1) (Or.inl rfl) hch
              (by
                intro c hclen hcpar hcpos hccp
                have hcr : c = 2 * pos + 1 + 1 := by omega
                rw [hcr]
                exact le_of_lt hk)
          refine ⟨pos', h', ?_, hlen', hnoch, hhole', hperm'⟩
          simp only [siftupLoop]
          rw [if_pos hch, if_pos hr, cmpLt_ok_true hk]
          exact heq'
        · obtain ⟨pos', h', heq', hlen', hnoch, hhole', hperm'⟩ :=
            main (2 * pos + 1 + 1) (Or.inr (by omega)) hr
              (by
                intro c hclen hcpar hcpos hccp
                have hcl : c = 2 * pos + 1 := by omega
                rw [hcl]
                exact le_of_lt hk)
          refine ⟨pos', h', ?_, hlen', hnoch, hhole', hperm'⟩
          simp only [siftupLoop]
          rw [if_pos hch, if_pos hr, cmpLt_ok_false hk]
          exact heq'
      · obtain ⟨pos', h', heq', hlen', hnoch, hhole', hperm'⟩ :=
          main (2 * pos + 1) (Or.inl rfl) hch
            (fun c hclen hcpar hcpos hccp => absurd hclen (by omega))
        refine ⟨pos', h', ?_, hlen', hnoch, hhole', hperm'⟩
        simp only [siftupLoop]
        rw [if_pos hch, if_neg hr]
        exact heq'
    · refine ⟨pos, heap, ?_, rfl, hch, hhole, fun a => List.Perm.refl _⟩
      simp only [siftupLoop]
      rw [if_neg hch]

theorem keyAt_append_lt (l l' : List Entry) (j : ℕ) (h : j < l.length) :
    keyAt (l ++ l') j = keyAt l j := by
  rw [keyAt, keyAt, List.getD_append _ _ _ _ h]

theorem set_append_length (l : List Entry) (a b : Entry) :
    (l ++ [a]).set l.length b = l ++ [b] := by
  induction l with
  | nil => rfl
  | cons x t ih =>
    show x :: (t ++ [a]).set t.length b = x :: (t ++ [b])
    rw [ih]

/-- Rewriting the hole's stale content does not disturb the hole
invariant, which constrains no edge into the hole. -/
theorem holeInv_set_hole (heap : List Entry) (pos : ℕ) (a : Entry)
    (hhole : HoleInv heap pos) : HoleInv (heap.set pos a) pos := by
  constructor
  · simpa using hhole.bounded
  · intro c hc hcpos hcp hcpp
    have hc' : c < heap.length := by simpa using hc
    rw [keyAt_set_ne _ _ _ _ (Ne.symm hcpp), keyAt_set_ne _ _ _ _ (Ne.symm hcp)]
    exact hhole.ord c hc' hcpos hcp hcpp
  · intro c hc hcp hpos
    have hc' : c < heap.length := by simpa using hc
    have hcne : pos ≠ c := by omega
    have hpne : pos ≠ (pos - 1) / 2 := by omega
    rw [keyAt_set_ne _ _ _ _ hpne, keyAt_set_ne _ _ _ _ hcne]
    exact hhole.par c hc' hcp hpos

/-- Full specification of `_siftup` at the root: repairing a heap whose root
was replaced (a hole state at index 0) succeeds and yields a permutation of
the input satisfying the heap invariant. -/
theorem siftup_spec (heap : List Entry) (hhole : HoleInv heap 0)
    (hnd : keysNodup heap) :
    ∃ h', siftup heap 0 = .ok h' ∧ h'.Perm heap ∧ heapInv h' ∧
      keysNodup h' := by
  have h0 : 0 < heap.length := hhole.bounded
  have hset : heap.set 0 (heap.getD 0 (0, 0)) = heap := set_getD_self heap 0 h0
  obtain ⟨pos', h₁, heq₁, hlen₁, hnoch, hhole₁, hperm₁⟩ :=
    siftupLoop_spec (heap.getD 0 (0, 0)) heap.length 0 heap (by omega) hhole
      (by rw [hset]; exact hnd)
  have hperm₁' : (h₁.set pos' (heap.getD 0 (0, 0))).Perm heap := by
    have h2 := hperm₁ (heap.getD 0 (0, 0))
    rw [hset] at h2
    exact h2
  have hnd₁ : keysNodup (h₁.set pos' (heap.getD 0 (0, 0))) :=
    keysNodup_of_perm hperm₁'.symm hnd
  have hlenset : (h₁.set pos' (heap.getD 0 (0, 0))).length = heap.length := by
    simp [hlen₁]
  obtain ⟨h₂, heq₂, hperm₂, hinv₂⟩ :=
    siftdownLoop_spec (heap.getD 0 (0, 0)) pos' pos'
      (h₁.set pos' (heap.getD 0 (0, 0))) (le_refl _)
      (holeInv_set_hole h₁ pos' _ hhole₁)
      (fun c hc hcp hcpos => absurd hc (by omega))
      (by rw [List.set_set]; exact hnd₁)
  rw [List.set_set] at hperm₂
  have hperm : h₂.Perm heap := hperm₂.trans hperm₁'
  refine ⟨h₂, ?_, hperm, hinv₂, keysNodup_of_perm hperm.symm hnd⟩
  simp only [siftup]
  rw [heq₁]
  exact heq₂

/-- Full specification of `heappush` under distinct keys: the push succeeds
(no comparison reaches the dict payloads) and the result is a permutation of
the old heap plus the new item, again a valid heap. -/
theorem heappush_spec (heap : List Entry) (item : Entry) (hinv : heapInv heap)
    (hnd : keysNodup (heap ++ [item])) :
    ∃ h', heappush heap item = .ok h' ∧ h'.Perm (heap ++ [item]) ∧
      heapInv h' ∧ keysNodup h' := by
  have hset : (heap ++ [item]).set heap.length item = heap ++ [item] :=
    set_append_length heap item item
  have hhole : HoleInv (heap ++ [item]) heap.length := by
    constructor
    · simp
    · intro c hc hcpos hcp hcpp
      have hc' : c < heap.length := by
        simp only [List.length_append, List.length_singleton] at hc
        omega
      rw [keyAt_append_lt _ _ _ (by omega), keyAt_append_lt _ _ _ hc']
      exact hinv c hc' hcpos
    · intro c hc hcp _
      have hc' : c < heap.length + 1 := by simpa using hc
      omega
  obtain ⟨h', heq, hperm, hinv'⟩ :=
    siftdownLoop_spec item heap.length heap.length (heap ++ [item])
      (le_refl _) hhole
      (fun c hclen hcpar hcpos => absurd hclen
        (by simp only [List.length_append, List.length_singleton]; omega))
      (by rw [hset]; exact hnd)
  rw [hset] at hperm
  exact ⟨h', heq, hperm, hinv', keysNodup_of_perm hperm.symm hnd⟩

theorem heappop_concat (l : List Entry) (a : Entry) (hl : l ≠ []) :
    heappop (l ++ [a]) =
      match siftup (l.set 0 a) 0 with
      | .error h => .error h
      | .ok h => .ok (l.getD 0 (0, 0), h) := by
  simp only [heappop, List.getLast?_concat, List.dropLast_concat]
  cases l with
  | nil => exact absurd rfl hl
  | cons r0 rtail => rfl

/-- Full specification of `heappop` under distinct keys: popping a valid
nonempty heap succeeds, returns the root, and leaves a valid heap holding the
remaining entries. -/
theorem heappop_spec (heap : List Entry) (hne : heap ≠ [])
    (hinv : heapInv heap) (hnd : keysNodup heap) :
    ∃ h', heappop heap = .ok (heap.getD 0 (0, 0), h') ∧
      (heap.getD 0 (0, 0) :: h').Perm heap ∧ heapInv h' ∧ keysNodup h' := by
  rcases List.eq_nil_or_concat heap with rfl | ⟨l', a, hconcat⟩
  · exact absurd rfl hne
  · rw [List.concat_eq_append] at hconcat
    subst hconcat
    cases l' with
      | nil =>
        refine ⟨[], rfl, List.Perm.refl _, ?_, List.nodup_nil⟩
        intro c hc hcpos
        simp at hc
      | cons r0 rtail =>
        have hkey : ∀ j, 0 < j → j < (r0 :: rtail).length →
            keyAt (a :: rtail) j = keyAt ((r0 :: rtail) ++ [a]) j := by
          intro j hj hjlen
          have e1 : (a :: rtail : List Entry) = (r0 :: rtail).set 0 a := rfl
          rw [e1, keyAt_set_ne _ _ _ _ (by omega), keyAt_append_lt _ _ _ hjlen]
        have hhole0 : HoleInv (a :: rtail) 0 := by
          constructor
          · simp
          · intro c hc hcpos hc0 hcp0
            have hc' : c < (r0 :: rtail).length := by simpa using hc
            rw [hkey c hcpos hc', hkey ((c - 1) / 2) (by omega) (by omega)]
            exact hinv c (by simp only [List.length_append]; omega) hcpos
          · intro c hc hcp h0
            exact absurd h0 (by omega)
        have hnd0 : keysNodup (a :: rtail) := by
          have hnd1 := hnd
          rw [keysNodup] at hnd1
          simp only [List.map_append, List.map_cons, List.map_nil,
            List.cons_append] at hnd1
          have htail : (rtail.map Prod.fst ++ [a.1]).Nodup :=
            (List.nodup_cons.mp hnd1).2
          exact (List.perm_append_singleton a.1 (rtail.map Prod.fst)).nodup htail
        obtain ⟨h', heq, hperm, hinv', hnd'⟩ := siftup_spec (a :: rtail) hhole0 hnd0
        refine ⟨h', ?_, ?_, hinv', hnd'⟩
        · rw [heappop_concat _ _ (by simp)]
          have hset : (r0 :: rtail).set 0 a = a :: rtail := rfl
          rw [hset, heq]
          rfl
        · exact (hperm.cons r0).trans
            ((List.perm_append_singleton a rtail).symm.cons r0)

/-- Draining a valid heap with distinct keys yields exactly the stored
entries, in strictly increasing key order (strictly decreasing priority). -/
theorem drain_spec :
    ∀ fuel heap, heap.length ≤ fuel → heapInv heap → keysNodup heap →
      (drain fuel heap).Perm heap ∧
      (drain fuel heap).Pairwise (fun d e : Entry => d.1 < e.1) := by
  intro fuel
  induction fuel with
  | zero =>
    intro heap hfuel _ _
    have hnil : heap = [] := List.eq_nil_of_length_eq_zero (by omega)
    subst hnil
    exact ⟨List.Perm.refl _, List.Pairwise.nil⟩
  | succ fuel ih =>
    intro heap hfuel hinv hnd
    by_cases hne : heap = []
    · subst hne
      exact ⟨List.Perm.refl _, List.Pairwise.nil⟩
    · obtain ⟨h', hpop, hperm, hinv', hnd'⟩ := heappop_spec heap hne hinv hnd
      have hie : heap.isEmpty = false := by
        cases heap with
        | nil => exact absurd rfl hne
        | cons x t => rfl
      have hdrain : drain (fuel + 1) heap =
          heap.getD 0 (0, 0) :: drain fuel h' := by
        rw [drain, hie, if_neg (by simp), hpop]
      have hlen' : h'.length ≤ fuel := by
        have hl := hperm.length_eq
        simp only [List.length_cons] at hl
        omega
      obtain ⟨ihperm, ihpair⟩ := ih h' hlen' hinv' hnd'
      constructor
      · rw [hdrain]
        exact (ihperm.cons _).trans hperm
      · rw [hdrain]
        refine List.Pairwise.cons ?_ ihpair
        intro e he
        have hemem : e ∈ h' := ihperm.mem_iff.mp he
        have hmemheap : e ∈ heap :=
          hperm.mem_iff.mp (List.mem_cons_of_mem _ hemem)
        have hle : keyAt heap 0 ≤ e.1 := mem_key_le heap hinv hmemheap
        have hndroot : keysNodup (heap.getD 0 (0, 0) :: h') :=
          keysNodup_of_perm hperm.symm hnd
        have hnotin : (heap.getD 0 (0, 0)).1 ∉ h'.map Prod.fst :=
          (List.nodup_cons.mp hndroot).1
        have hne2 : (heap.getD 0 (0, 0)).1 ≠ e.1 := fun hcon =>
          hnotin (by rw [hcon]; exact List.mem_map_of_mem Prod.fst hemem)
        exact lt_of_le_of_ne hle hne2

theorem pairwise_before (l : List Entry)
    (hpair : l.Pairwise (fun d e : Entry => d.1 < e.1))
    {x y : Entry} (hx : x ∈ l) (hy : y ∈ l) (hxy : x.1 < y.1) :
    ∃ i j, i < j ∧ j < l.length ∧ l.getD i (0, 0) = x ∧
      l.getD j (0, 0) = y := by
  obtain ⟨i, hi, hgi⟩ := List.mem_iff_getElem.mp hx
  obtain ⟨j, hj, hgj⟩ := List.mem_iff_getElem.mp hy
  have hij : i < j := by
    rcases lt_trichotomy i j with h | h | h
    · exact h
    · exfalso
      subst h
      rw [hgi] at hgj
      rw [hgj] at hxy
      omega
    · have h2 := (List.pairwise_iff_getElem.mp hpair) _ _ hj hi h
      rw [hgi, hgj] at h2
      omega
  exact ⟨i, j, hij, hj, by rw [List.getD_eq_getElem _ _ hi, hgi],
    by rw [List.getD_eq_getElem _ _ hj, hgj]⟩

/-- **C4 amended.** For entries with distinct priorities the claimed ordering
holds: whenever `(-p₁, id₁)` and `(-p₂, id₂)` both sit in a valid intake heap
with `p₁ > p₂`, repeatedly dequeuing (as `_process_questions` does) yields
both entries, with the higher-priority one strictly earlier — regardless of
arrival order.  The claimed FIFO tie-break for equal priorities is refuted
separately: an equal-priority comparison falls through to the
`routing_info` dicts and raises `TypeError` after the step's mutation is
committed, so the colliding enqueue leaves both tied entries in the list,
and a pop that reaches such a comparison has already discarded the root it
should have returned. -/
theorem dequeue_priority_order (fuel : ℕ) (heap : List Entry)
    (p₁ p₂ : ℤ) (id₁ id₂ : ℕ) (hinv : heapInv heap) (hnd : keysNodup heap)
    (h₁ : (-p₁, id₁) ∈ heap) (h₂ : (-p₂, id₂) ∈ heap) (hp : p₂ < p₁)
    (hfuel : heap.length ≤ fuel) :
    (-p₁, id₁) ∈ drain fuel heap ∧ (-p₂, id₂) ∈ drain fuel heap ∧
      ∃ i j, i < j ∧ j < (drain fuel heap).length ∧
        (drain fuel heap).getD i (0, 0) = (-p₁, id₁) ∧
        (drain fuel heap).getD j (0, 0) = (-p₂, id₂) := by
  obtain ⟨hperm, hpair⟩ := drain_spec fuel heap hfuel hinv hnd
  have hm₁ : (-p₁, id₁) ∈ drain fuel heap := hperm.mem_iff.mpr h₁
  have hm₂ : (-p₂, id₂) ∈ drain fuel heap := hperm.mem_iff.mpr h₂
  exact ⟨hm₁, hm₂, pairwise_before _ hpair hm₁ hm₂ (Int.neg_lt_neg hp)⟩

/-- Witness for `dequeue_priority_order`: the two-entry heap
`[(-10, 0), (-5, 1)]` drains to `[(-10, 0), (-5, 1)]`, the priority-10 entry
strictly before the priority-5 one. -/
theorem dequeue_priority_order_witness :
    heapInv [((-10 : ℤ), 0), ((-5 : ℤ), 1)] ∧
    ((-10, 0) ∈ drain 2 [((-10 : ℤ), 0), ((-5 : ℤ), 1)] ∧
      (-5, 1) ∈ drain 2 [((-10 : ℤ), 0), ((-5 : ℤ), 1)] ∧
      ∃ i j, i < j ∧ j < (drain 2 [((-10 : ℤ), 0), ((-5 : ℤ), 1)]).length ∧
        (drain 2 [((-10 : ℤ), 0), ((-5 : ℤ), 1)]).getD i (0, 0) = (-10, 0) ∧
        (drain 2 [((-10 : ℤ), 0), ((-5 : ℤ), 1)]).getD j (0, 0) = (-5, 1)) :=
  ⟨by decide, dequeue_priority_order 2 [((-10 : ℤ), 0), ((-5 : ℤ), 1)] 10 5 0 1
    (by decide) (by decide) (by decide) (by decide) (by decide) (by decide)⟩

/-- **C4 counterexample.** Equal-priority entries are not dequeued FIFO: the
tuple comparison falls through to the unorderable `routing_info` dicts and
raises `TypeError` — after the mutation of the step has been committed.
Pushing a second priority-5 entry onto `[(-5, 0)]` appends it and then
raises, so the caught exception leaves both tied entries in the queue's
list; with three entries `[(-10, 0), (-5, 1), (-5, 2)]` the pushes succeed
but the first `get()` raises only after popping the last element and
overwriting the root, silently losing the priority-10 root, after which the
loop's remaining `get()`s dequeue exactly the two tied entries — the
highest-priority entry is never dequeued and no FIFO order among the tied
entries is established. -/
theorem queue_tiebreak_counterexample :
    heappush [((-5 : ℤ), 0)] (-5, 1) = .error [(-5, 0), (-5, 1)] ∧
    onTextDetected ⟨0, [((-5 : ℤ), 0)]⟩ 5 1 = ⟨0, [(-5, 0), (-5, 1)]⟩ ∧
    heappush [((-10 : ℤ), 0), ((-5 : ℤ), 1)] (-5, 2) =
      .ok [(-10, 0), (-5, 1), (-5, 2)] ∧
    heappop [((-10 : ℤ), 0), ((-5 : ℤ), 1), ((-5 : ℤ), 2)] =
      .error [(-5, 1), (-5, 2)] ∧
    drain 3 [((-10 : ℤ), 0), ((-5 : ℤ), 1), ((-5 : ℤ), 2)] =
      [(-5, 1), (-5, 2)] :=
  ⟨rfl, rfl, rfl, rfl, rfl⟩

/-- **C3.** The intake queue is not bounded: `DSAGodMode.__init__` builds
`queue.PriorityQueue()` with the default `maxsize = 0`, and the configured
`max_queue_size = 100` is never read.  `full()` is identically `false` for a
`maxsize = 0` queue, so the overflow/rejection path is unreachable: enqueuing
into a queue already holding 100 entries accepts the new entry and grows the
queue to 101. -/
theorem intake_queue_unbounded :
    initialQuestionQueue.maxsize = 0 ∧ defaultMaxQueueSize = 100 ∧
    (∀ h : List Entry, qFull { maxsize := 0, heap := h } = false) ∧
    (onTextDetected
        { maxsize := 0,
          heap := (List.range 100).map (fun i : ℕ => ((i : ℤ) - 100, i)) }
        200 100).heap.length = 101 :=
  ⟨rfl, rfl, fun h => rfl, rfl⟩

end Heapq

end DSAX
